import Mathlib

/-!
# Verification development for `hass.go` (package `homeassistant`)

A shallow embedding of the Home Assistant REST client and of the parts of the Go
standard library it calls (`strings.Join`, `net/url`, `time`, `encoding/json`,
`net/http`), followed by theorems about the four client operations.

Conventions of the embedding:

* a Go `string` is a Lean `String`, the UTF-8 encoded text it holds (a Go string
  that is not valid UTF-8 has no counterpart here);
* a Go `error` is a value of `Error`, which keeps where the error comes from;
  a result pair `(x, nil)` or `(nil, err)` is an `Except Error`;
* a function with effects returns its Go results together with the list of
  effects it performed, in order (`Event`);
* what the client cannot decide itself is a parameter: the transport
  (`http.Client.Do` as a whole, redirects included, the field `client`), what
  `url.Parse` makes of a text beyond its first check (`parse`), and
  `json.Marshal` at the payload type (`Marshal`);
* a request carries the URL as `url.Parse` read it (a `url.URL`), not the text
  it was parsed from; the text an operation hands to `http.NewRequest` is
  recorded apart, as an effect;
* "the URL an operation requests" is the text it hands to `http.NewRequest`
  (`built`); "a request is issued" means that it is handed to the transport
  (`roundTrips`);
* a response body is the whole text the server sent;
* the seconds of a `time.Time` are an `Int`, of which Go holds the values from
  `-2^63` to `2^63 - 1`; the calendar arithmetic wraps at 64 bits as Go's does.
-/

namespace Hass

/-! ## `strings` and `net/url` -/

/-- Go `strings.Join(elems, sep)`. -/
def Join : List String → String → String
  | [], _ => ""
  | [a], _ => a
  | a :: b :: rest, sep => a ++ sep ++ Join (b :: rest) sep

/-- The UTF-8 encoding of a character, as byte values. -/
def utf8Bytes (c : Char) : List Nat :=
  let n := c.toNat
  if n < 0x80 then [n]
  else if n < 0x800 then [0xC0 + n / 64, 0x80 + n % 64]
  else if n < 0x10000 then [0xE0 + n / 4096, 0x80 + n / 64 % 64, 0x80 + n % 64]
  else [0xF0 + n / 262144, 0x80 + n / 4096 % 64, 0x80 + n / 64 % 64, 0x80 + n % 64]

/-- Go `net/url.shouldEscape(c, encodeQueryComponent)`: everything is escaped
except ASCII letters, digits and `-`, `_`, `.`, `~`. Every byte of a multi-byte
character is at least 0x80, so such a character is escaped byte by byte. -/
def shouldEscape (c : Char) : Bool :=
  if ('a' ≤ c && c ≤ 'z') || ('A' ≤ c && c ≤ 'Z') || ('0' ≤ c && c ≤ '9') then false
  else if c = '-' || c = '_' || c = '.' || c = '~' then false
  else true

/-- Go `upperhex[i]` for `upperhex = "0123456789ABCDEF"`. -/
def upperhex (i : Nat) : Char :=
  "0123456789ABCDEF".data.getD i '0'

/-- The three characters `%XY` that `net/url.escape` writes for one byte. -/
def pctByte (b : Nat) : List Char :=
  ['%', upperhex (b / 16), upperhex (b % 16)]

/-- What `net/url.escape(s, encodeQueryComponent)` writes for one character. -/
def escapeChar (c : Char) : List Char :=
  if shouldEscape c then
    if c = ' ' then ['+'] else (utf8Bytes c).flatMap pctByte
  else [c]

/-- Go `url.QueryEscape(s)`. -/
def QueryEscape (s : String) : String :=
  String.mk (s.data.flatMap escapeChar)

/-- Byte-wise `a < b` on Go strings (code point order is UTF-8 byte order). -/
def strLt : List Char → List Char → Bool
  | [], [] => false
  | [], _ :: _ => true
  | _ :: _, [] => false
  | a :: as, b :: bs =>
    if a.toNat < b.toNat then true
    else if b.toNat < a.toNat then false
    else strLt as bs

/-- Insert a key into a sorted list of keys. -/
def insertKey (k : String) : List String → List String
  | [] => [k]
  | x :: xs => if strLt x.data k.data then x :: insertKey k xs else k :: x :: xs

/-- Go `slices.Sort(keys)` on strings. -/
def sortKeys : List String → List String
  | [] => []
  | k :: ks => insertKey k (sortKeys ks)

/-- Go `url.Values`, a `map[string][]string`: each key occurs once. -/
structure Values where
  entries : List (String × List String)

/-- Go `url.Values{}`. -/
def Values.empty : Values := ⟨[]⟩

/-- Go `v[key]` on `url.Values` (nil when the key is absent). -/
def Values.get (v : Values) (key : String) : List String :=
  match v.entries.find? (fun p => p.1 == key) with
  | some p => p.2
  | none => []

/-- Go `Values.Set`: `v[key] = []string{value}`, replacing what was there. -/
def Values.Set (v : Values) (key value : String) : Values :=
  ⟨(key, [value]) :: v.entries.filter (fun p => !(p.1 == key))⟩

/-- The `key=value` segments that `Values.Encode` writes, in order. -/
def Values.segments (v : Values) : List String :=
  (sortKeys (v.entries.map Prod.fst)).flatMap fun k =>
    (v.get k).map fun x => QueryEscape k ++ "=" ++ QueryEscape x

/-- Go `Values.Encode`: the segments, sorted by key, separated by `&`. -/
def Values.Encode (v : Values) : String :=
  Join v.segments "&"

/-! ## `time` -/

/-- Go `*time.Location`: the offset, in seconds east of UTC, in effect at an
instant (given in seconds since 1 January of year 1, 00:00:00 UTC). -/
structure Location where
  offsetAt : Int → Int

/-- Go `time.UTC`. -/
def UTC : Location := ⟨fun _ => 0⟩

/-- Go `time.Time` without the monotonic clock reading: the instant, as seconds
since 1 January of year 1, 00:00:00 UTC (in Go an `int64`), plus nanoseconds,
and the location the time is expressed in. -/
structure Time where
  sec : Int
  nsec : Nat
  loc : Location

/-- The zero value `time.Time{}`. -/
def Time.zero : Time := ⟨0, 0, UTC⟩

/-- Go `t.IsZero()`: `t.sec() == 0 && t.nsec() == 0`. -/
def Time.IsZero (t : Time) : Bool :=
  t.sec == 0 && t.nsec == 0

/-- Go `t.UTC()`: the same instant with the location set to UTC. -/
def Time.UTC (t : Time) : Time :=
  { t with loc := Hass.UTC }

/-- Go `time.isLeap`. -/
def isLeap (year : Int) : Bool :=
  year % 4 == 0 && (year % 100 != 0 || year % 400 == 0)

/-- Go `time.daysBefore[m]`: days in a non-leap year before month `m + 1`. -/
def daysBefore (m : Nat) : Nat :=
  [0, 31, 59, 90, 120, 151, 181, 212, 243, 273, 304, 334, 365].getD m 0

/-- The middle of `time.absDate`, on the days `d` left of a 400-year cycle: cut
off 100-year cycles, 4-year cycles and years (the last of each kind is a day
longer, which `n - n / 4`, Go `n -= n >> 2`, makes up for). The result is the
numbers of cycles cut off and the days that remain, the day of the year. -/
def cutCycles (d : Nat) : Nat × Nat × Nat × Nat :=
  let n := d / 36524
  let n100 := n - n / 4
  let d1 := d - 36524 * n100
  let n4 := d1 / 1461
  let d2 := d1 - 1461 * n4
  let n := d2 / 365
  let n1 := n - n / 4
  (n100, n4, n1, d2 - 365 * n1)

/-- The year and the day within the year (from 0) of a day count: cut off
400-year cycles, then the shorter ones, as `time.absDate` does (releases of Go
that have `absDays.date` instead reach the same date of the proleptic
Gregorian calendar by another arithmetic). Days are counted here from
1 January of year 1, the start of a 400-year cycle. -/
def absYear (days : Int) : Int × Nat :=
  let n400 := days / 146097
  let c := cutCycles (days % 146097).toNat
  (400 * n400 + 100 * c.1 + 4 * c.2.1 + c.2.2.1 + 1, c.2.2.2)

/-- The month (from 1) and day of the month (from 1) of day `yday` of a year,
following the second half of `time.absDate`. -/
def monthDay (leap : Bool) (yday : Nat) : Nat × Nat :=
  if leap && yday == 31 + 29 - 1 then (2, 29)
  else
    let day := if leap && yday > 31 + 29 - 1 then yday - 1 else yday
    let month := day / 31
    let stop := daysBefore (month + 1)
    if day ≥ stop then (month + 2, day - stop + 1)
    else (month + 1, day - daysBefore month + 1)

/-- Go `time.absDate(abs, true)` on a day count: year, month, day. -/
def absDate (days : Int) : Int × Nat × Nat :=
  let yd := absYear days
  (yd.1, monthDay (isLeap yd.1) yd.2)

/-- Go `time.absClock`: hour, minute, second of the second within the day. -/
def absClock (secOfDay : Nat) : Nat × Nat × Nat :=
  let hour := secOfDay / 3600
  let sec := secOfDay - hour * 3600
  let min := sec / 60
  (hour, min, sec - min * 60)

/-- A decimal digit. -/
def digitChar (d : Nat) : Char :=
  Char.ofNat (48 + d % 10)

/-- Go `time.appendInt(b, x, width)`: a minus sign for a negative `x`, then the
decimal digits of its absolute value, zero-padded on the left to `width`. The
two-digit and four-digit cases are written out, as in Go. -/
def appendInt (x : Int) (width : Nat) : List Char :=
  let u := x.natAbs
  let sign := if x < 0 then [ '-' ] else []
  if width = 2 ∧ u < 100 then sign ++ [digitChar (u / 10), digitChar u]
  else if width = 4 ∧ u < 10000 then
    sign ++ [digitChar (u / 1000), digitChar (u / 100), digitChar (u / 10), digitChar u]
  else
    let ds := Nat.toDigits 10 u
    sign ++ List.replicate (width - ds.length) '0' ++ ds

/-- Go `internalToAbsolute`: the seconds from the absolute zero of package
`time` to 1 January of year 1, 00:00:00 UTC,
`(absoluteYears*365.2425 + marchThruDecember) * secondsPerDay` with
`absoluteYears = 292277022400`: the absolute zero is 1 March of the year
-292277022400. (Releases of Go that still have `absoluteZeroYear = -292277022399`
put it 306 days later; the two agree on every instant from there on.) -/
def internalToAbsolute : Int := 9223371966606163200

/-- Go `t.locabs()`: the instant of `t` moved by the offset of its location, as
seconds since the absolute zero in a `uint64` (the sum wraps at 64 bits), and
the offset itself. -/
def Time.locabs (t : Time) : Nat × Int :=
  let offset := t.loc.offsetAt t.sec
  (((t.sec + offset + internalToAbsolute) % 18446744073709551616).toNat, offset)

/-- The days of an absolute second count (Go `abs.days()`), counted from
1 January of year 1 instead of the absolute zero. -/
def absDays (abs : Nat) : Int :=
  ((abs / 86400 : Nat) : Int) - internalToAbsolute / 86400

/-- Go `t.Year()`: the year of `t` in its location. -/
def Time.Year (t : Time) : Int :=
  (absDate (absDays t.locabs.1)).1

/-- The zone suffix that `Format` writes for the layout element `Z07:00`. -/
def zoneSuffix (offset : Int) : List Char :=
  if offset = 0 then [ 'Z' ]
  else
    let zone := offset.natAbs / 60
    (if offset.tdiv 60 < 0 then [ '-' ] else [ '+' ]) ++
      appendInt (zone / 60) 2 ++ [ ':' ] ++ appendInt (zone % 60) 2

/-- Go `t.Format(time.RFC3339)`, layout `2006-01-02T15:04:05Z07:00`. -/
def Time.FormatRFC3339 (t : Time) : String :=
  let la := t.locabs
  let date := absDate (absDays la.1)
  let clock := absClock (la.1 % 86400)
  String.mk (appendInt date.1 4 ++ [ '-' ] ++ appendInt date.2.1 2 ++ [ '-' ] ++
    appendInt date.2.2 2 ++ [ 'T' ] ++ appendInt clock.1 2 ++ [ ':' ] ++
    appendInt clock.2.1 2 ++ [ ':' ] ++ appendInt clock.2.2 2 ++ zoneSuffix la.2)

/-- Source `dateFormat`: `t.UTC().Format(time.RFC3339)`. -/
def dateFormat (t : Time) : String :=
  (t.UTC).FormatRFC3339

/-- An ASCII decimal digit. -/
def isDigit (c : Char) : Bool :=
  '0' ≤ c && c ≤ '9'

/-- The form `YYYY-MM-DDTHH:MM:SSZ`: digits at the places of the letters. -/
def isRFC3339UTC : List Char → Bool
  | [y1, y2, y3, y4, '-', m1, m2, '-', d1, d2, 'T', h1, h2, ':', n1, n2, ':', s1, s2, 'Z'] =>
    isDigit y1 && isDigit y2 && isDigit y3 && isDigit y4 && isDigit m1 && isDigit m2 &&
    isDigit d1 && isDigit d2 && isDigit h1 && isDigit h2 && isDigit n1 && isDigit n2 &&
    isDigit s1 && isDigit s2
  | _ => false

/-- Go `time.daysSinceEpoch(year)`, counted from 1 January of year 1: the days
before 1 January of `year`, by 400-year, 100-year and 4-year cycles. -/
def daysSinceEpoch (year : Int) : Int :=
  let y := year - 1
  let n400 := y / 400
  let y1 := y - 400 * n400
  let n100 := y1 / 100
  let y2 := y1 - 100 * n100
  let n4 := y2 / 4
  let y3 := y2 - 4 * n4
  146097 * n400 + 36524 * n100 + 1461 * n4 + 365 * y3

/-- Go `time.daysIn(month, year)`: the days of a month. -/
def daysIn (month : Nat) (year : Int) : Nat :=
  if month = 2 ∧ isLeap year then 29 else daysBefore month - daysBefore (month - 1)

/-- Go `time.Date(year, month, day, hour, min, sec, 0, time.UTC)` for fields
within their ranges and a result that fits 64 bits: the instant, in seconds
since 1 January of year 1. -/
def Date (year : Int) (month day hour min sec : Nat) : Int :=
  let inYear : Nat := daysBefore (month - 1) + (if isLeap year && month ≥ 3 then 1 else 0) +
    (day - 1)
  (daysSinceEpoch year + inYear) * 86400 + (hour * 3600 + min * 60 + sec : Nat)

/-! ## `encoding/json`: reading one value -/

/-- A JSON value as `encoding/json` sees it. A number keeps its literal. -/
inductive JSON where
  | null
  | bool (b : Bool)
  | number (lit : String)
  | string (s : String)
  | array (elems : List JSON)
  | object (members : List (String × JSON))

/-- An open array or object of the scanner (`scanner.parseState`), with what
has been read of it so far. -/
inductive Frame where
  | arr (elems : List JSON)
  | objKey (members : List (String × JSON))
  | objColon (members : List (String × JSON)) (key : String)
  | objVal (members : List (String × JSON)) (key : String)
  | objNext (members : List (String × JSON))

/-- The state of the scanner (`scanner.step`). A string state carries the
characters of the string decoded so far (Go decodes them afterwards, in
`unquote`) and a high surrogate that waits for its partner; a number state
carries the literal read so far. -/
inductive Scan where
  | beginValue
  | beginValueOrEmpty
  | beginStringOrEmpty
  | beginString
  | inString (acc : List Char) (hi : Option Nat)
  | inStringEsc (acc : List Char) (hi : Option Nat)
  | inStringEscU (acc : List Char) (hi : Option Nat) (val : Nat) (left : Nat)
  | neg (lit : List Char)
  | zero (lit : List Char)
  | int (lit : List Char)
  | dot (lit : List Char)
  | frac (lit : List Char)
  | exp (lit : List Char)
  | expSign (lit : List Char)
  | expDigits (lit : List Char)
  | literal (rest : List Char) (v : JSON)
  | endValue

/-- What one byte does to the scanner. -/
inductive Outcome where
  | cont (st : Scan) (stack : List Frame)
  | done (v : JSON) (consumed : Bool)
  | fail

/-- Go `json.isSpace`. -/
def isSpace (c : Char) : Bool :=
  c = ' ' || c = '\t' || c = '\r' || c = '\n'

/-- The value of a hexadecimal digit, if it is one. -/
def hexVal (c : Char) : Option Nat :=
  if '0' ≤ c && c ≤ '9' then some (c.toNat - 48)
  else if 'a' ≤ c && c ≤ 'f' then some (c.toNat - 87)
  else if 'A' ≤ c && c ≤ 'F' then some (c.toNat - 55)
  else none

/-- The character a one-letter escape stands for. -/
def unescapeLetter (c : Char) : Char :=
  if c = 'b' then Char.ofNat 8
  else if c = 'f' then Char.ofNat 12
  else if c = 'n' then '\n'
  else if c = 'r' then '\r'
  else if c = 't' then '\t'
  else c

/-- The text read so far of a string, once a pending high surrogate (a `\uD8xx`
escape that no low surrogate followed) is written out as U+FFFD. -/
def flush (acc : List Char) (hi : Option Nat) : List Char :=
  match hi with
  | some _ => acc ++ [Char.ofNat 0xFFFD]
  | none => acc

/-- Go `unquote` at a `\uXXXX` escape of value `rr`: a low surrogate right after
a high one gives one character, a surrogate without its partner gives U+FFFD,
a high surrogate waits for the next escape. -/
def addRune (acc : List Char) (hi : Option Nat) (rr : Nat) : List Char × Option Nat :=
  match hi with
  | some h =>
    if 0xDC00 ≤ rr && rr < 0xE000 then
      (acc ++ [Char.ofNat ((h - 0xD800) * 1024 + (rr - 0xDC00) + 0x10000)], none)
    else if 0xD800 ≤ rr && rr < 0xDC00 then (acc ++ [Char.ofNat 0xFFFD], some rr)
    else (acc ++ [Char.ofNat 0xFFFD, Char.ofNat rr], none)
  | none =>
    if 0xD800 ≤ rr && rr < 0xDC00 then (acc, some rr)
    else if 0xDC00 ≤ rr && rr < 0xE000 then (acc ++ [Char.ofNat 0xFFFD], none)
    else (acc ++ [Char.ofNat rr], none)

/-- A value has been read: hand it to the enclosing array or object, or finish
when there is none (Go `stateEndValue` with an empty `parseState`). -/
def complete (v : JSON) (consumed : Bool) : List Frame → Outcome
  | [] => .done v consumed
  | .arr elems :: stack => .cont .endValue (.arr (elems ++ [v]) :: stack)
  | .objVal members key :: stack => .cont .endValue (.objNext (members ++ [(key, v)]) :: stack)
  | .objKey members :: stack =>
    match v with
    | .string key => .cont .endValue (.objColon members key :: stack)
    | _ => .fail
  | _ => .fail

/-- Go `scanner.pushParseState`: at most 10000 open arrays and objects. -/
def push (f : Frame) (st : Scan) (stack : List Frame) : Outcome :=
  if stack.length + 1 ≤ 10000 then .cont st (f :: stack) else .fail

/-- Go `stateEndValue`: after a value inside an array or object. -/
def endValue (c : Char) : List Frame → Outcome
  | [] => .fail
  | f :: stack =>
    if isSpace c then .cont .endValue (f :: stack)
    else
      match f with
      | .arr elems =>
        if c = ',' then .cont .beginValue (.arr elems :: stack)
        else if c = ']' then complete (.array elems) true stack
        else .fail
      | .objColon members key =>
        if c = ':' then .cont .beginValue (.objVal members key :: stack) else .fail
      | .objNext members =>
        if c = ',' then .cont .beginString (.objKey members :: stack)
        else if c = '\x7d' then complete (.object members) true stack
        else .fail
      | _ => .fail

/-- A number has ended before `c`: hand it on, then let `c` act on what
encloses it. At top level `c` is left unread. -/
def endNumber (lit : List Char) (c : Char) (stack : List Frame) : Outcome :=
  match complete (.number (String.mk lit)) false stack with
  | .cont _ stack1 => endValue c stack1
  | o => o

/-- Go `stateBeginValue`. -/
def beginValue (c : Char) (stack : List Frame) : Outcome :=
  if isSpace c then .cont .beginValue stack
  else if c = '\x7b' then push (.objKey []) .beginStringOrEmpty stack
  else if c = '[' then push (.arr []) .beginValueOrEmpty stack
  else if c = '"' then .cont (.inString [] none) stack
  else if c = '-' then .cont (.neg [c]) stack
  else if c = '0' then .cont (.zero [c]) stack
  else if c = 't' then .cont (.literal [ 'r', 'u', 'e' ] (.bool true)) stack
  else if c = 'f' then .cont (.literal [ 'a', 'l', 's', 'e' ] (.bool false)) stack
  else if c = 'n' then .cont (.literal [ 'u', 'l', 'l' ] .null) stack
  else if '1' ≤ c && c ≤ '9' then .cont (.int [c]) stack
  else .fail

/-- One byte of input: Go `scanner.step(&scan, c)`. -/
def scanStep (st : Scan) (stack : List Frame) (c : Char) : Outcome :=
  match st with
  | .beginValue => beginValue c stack
  | .beginValueOrEmpty =>
    if isSpace c then .cont .beginValueOrEmpty stack
    else if c = ']' then
      match stack with
      | .arr elems :: below => complete (.array elems) true below
      | _ => .fail
    else beginValue c stack
  | .beginStringOrEmpty =>
    if isSpace c then .cont .beginStringOrEmpty stack
    else if c = '\x7d' then
      match stack with
      | .objKey members :: below => complete (.object members) true below
      | _ => .fail
    else if c = '"' then .cont (.inString [] none) stack
    else .fail
  | .beginString =>
    if isSpace c then .cont .beginString stack
    else if c = '"' then .cont (.inString [] none) stack
    else .fail
  | .inString acc hi =>
    if c = '"' then complete (.string (String.mk (flush acc hi))) true stack
    else if c = '\\' then .cont (.inStringEsc acc hi) stack
    else if c.toNat < 0x20 then .fail
    else .cont (.inString (flush acc hi ++ [c]) none) stack
  | .inStringEsc acc hi =>
    if c = 'b' || c = 'f' || c = 'n' || c = 'r' || c = 't' || c = '\\' || c = '/' || c = '"' then
      .cont (.inString (flush acc hi ++ [unescapeLetter c]) none) stack
    else if c = 'u' then .cont (.inStringEscU acc hi 0 4) stack
    else .fail
  | .inStringEscU acc hi val left =>
    match hexVal c with
    | some d =>
      if left ≤ 1 then
        let r := addRune acc hi (val * 16 + d)
        .cont (.inString r.1 r.2) stack
      else .cont (.inStringEscU acc hi (val * 16 + d) (left - 1)) stack
    | none => .fail
  | .neg lit =>
    if c = '0' then .cont (.zero (lit ++ [c])) stack
    else if '1' ≤ c && c ≤ '9' then .cont (.int (lit ++ [c])) stack
    else .fail
  | .int lit =>
    if isDigit c then .cont (.int (lit ++ [c])) stack
    else if c = '.' then .cont (.dot (lit ++ [c])) stack
    else if c = 'e' || c = 'E' then .cont (.exp (lit ++ [c])) stack
    else endNumber lit c stack
  | .zero lit =>
    if c = '.' then .cont (.dot (lit ++ [c])) stack
    else if c = 'e' || c = 'E' then .cont (.exp (lit ++ [c])) stack
    else endNumber lit c stack
  | .dot lit =>
    if isDigit c then .cont (.frac (lit ++ [c])) stack else .fail
  | .frac lit =>
    if isDigit c then .cont (.frac (lit ++ [c])) stack
    else if c = 'e' || c = 'E' then .cont (.exp (lit ++ [c])) stack
    else endNumber lit c stack
  | .exp lit =>
    if c = '+' || c = '-' then .cont (.expSign (lit ++ [c])) stack
    else if isDigit c then .cont (.expDigits (lit ++ [c])) stack
    else .fail
  | .expSign lit =>
    if isDigit c then .cont (.expDigits (lit ++ [c])) stack else .fail
  | .expDigits lit =>
    if isDigit c then .cont (.expDigits (lit ++ [c])) stack
    else endNumber lit c stack
  | .literal rest v =>
    match rest with
    | [] => .fail
    | [x] => if c = x then complete v true stack else .fail
    | x :: more => if c = x then .cont (.literal more v) stack else .fail
  | .endValue => endValue c stack

/-- The end of the input: a number at top level is complete (Go feeds the
scanner a space), anything else still open is an unexpected end. -/
def atEOF (st : Scan) (stack : List Frame) : Option JSON :=
  match stack with
  | [] =>
    match st with
    | .zero lit => some (.number (String.mk lit))
    | .int lit => some (.number (String.mk lit))
    | .frac lit => some (.number (String.mk lit))
    | .expDigits lit => some (.number (String.mk lit))
    | _ => none
  | _ => none

/-- Run the scanner over the input until the first value is complete. The
result is that value and the input after it, or nothing when the input ends or
goes wrong before a value is complete. -/
def scan (st : Scan) (stack : List Frame) : List Char → Option (JSON × List Char)
  | [] => (atEOF st stack).map fun v => (v, [])
  | c :: cs =>
    match scanStep st stack c with
    | .cont st1 stack1 => scan st1 stack1 cs
    | .done v consumed => some (v, if consumed then cs else c :: cs)
    | .fail => none

/-- Go `Decoder.readValue` on a fresh decoder, with the value already parsed:
the first JSON value of the stream, and what follows it, which is not read. -/
def readValue (body : String) : Option (JSON × List Char) :=
  scan .beginValue [] body.data

/-! ## `encoding/json`: storing a value into the client's types -/

set_option linter.dupNamespace false

/-- A Go `error` value, by where it comes from: `errors.New(text)`; the error
of `http.NewRequest` for a URL that does not parse; an error returned by the
transport; an error of `Decode` (`io.EOF`, `io.ErrUnexpectedEOF`, a
`*json.SyntaxError` or a `*json.UnmarshalTypeError`, not told apart); an error
of `json.Marshal`. -/
inductive Error where
  | new (text : String)
  | request (rawURL : String)
  | transport (text : String)
  | decode
  | marshal (text : String)
deriving DecidableEq, Repr

deriving instance DecidableEq for Except

/-- Source `State`. -/
structure State where
  EntityID : String
  State : String
deriving DecidableEq, Repr

/-- The anonymous struct of `Entity.Attributes`. -/
structure EntityAttributes where
  FriendlyName : String
deriving DecidableEq, Repr

/-- Source `Entity`. -/
structure Entity where
  EntityID : String
  State : String
  Attributes : EntityAttributes
  LastChanged : String
  LastUpdated : String
deriving DecidableEq, Repr

/-- Source `HistoryStateAttribute`. -/
structure HistoryStateAttribute where
  UnitOfMeasurement : String
  FriendlyName : String
deriving DecidableEq, Repr

/-- Source `HistoryState`. -/
structure HistoryState where
  EntityID : String
  State : String
  LastChanged : String
  LastUpdated : String
  Attributes : HistoryStateAttribute
deriving DecidableEq, Repr

/-- Go `json.foldRune` as far as it can reach an ASCII letter: lower case goes
to upper case, and the two other runes whose fold set holds an ASCII letter,
U+017F (long s) and U+212A (Kelvin sign), go to `S` and `K`. Other runes fold
among runes outside ASCII and are left alone here; none of them can equal a
character of an ASCII field name, folded or not. -/
def foldRune (c : Char) : Char :=
  if 'a' ≤ c && c ≤ 'z' then Char.ofNat (c.toNat - 32)
  else if c.toNat = 0x17F then 'S'
  else if c.toNat = 0x212A then 'K'
  else c

/-- Go `json.foldName`. -/
def foldName (s : String) : String :=
  String.mk (s.data.map foldRune)

/-- The field of a struct that an object key is stored into: the field whose
`json` name is the key, else the first whose name equals it under folding. -/
def matchField (names : List String) (key : String) : Option String :=
  match names.find? (fun n => n == key) with
  | some n => some n
  | none => names.find? (fun n => foldName n == foldName key)

/-- Storing a JSON value into a `string` field: a string is stored, `null`
leaves the field as it is, anything else is an `UnmarshalTypeError`. -/
def storeString (v : JSON) (old : String) : Except Error String :=
  match v with
  | .string s => .ok s
  | .null => .ok old
  | _ => .error .decode

/-- Storing the members of a JSON object into a struct, one after the other. -/
def storeMembers {σ : Type} (names : List String)
    (store : σ → String → JSON → Except Error σ) :
    List (String × JSON) → σ → Except Error σ
  | [], x => .ok x
  | (key, v) :: rest, x =>
    match matchField names key with
    | none => storeMembers names store rest x
    | some name =>
      match store x name v with
      | .ok y => storeMembers names store rest y
      | .error err => .error err

/-- Storing one member into a `State`, by the `json` tags of its fields. -/
def State.store (x : Hass.State) (name : String) (v : JSON) : Except Error Hass.State :=
  if name = "entity_id" then (storeString v x.EntityID).map fun s => { x with EntityID := s }
  else if name = "state" then (storeString v x.State).map fun s => { x with State := s }
  else .ok x

/-- Storing a JSON value into a struct: an object is stored member by member,
`null` leaves the struct as it is, anything else is an `UnmarshalTypeError`. -/
def storeStruct {σ : Type} (names : List String)
    (store : σ → String → JSON → Except Error σ) (v : JSON) (old : σ) : Except Error σ :=
  match v with
  | .object members => storeMembers names store members old
  | .null => .ok old
  | _ => .error .decode

/-- Storing one member into the attributes of an `Entity`. -/
def EntityAttributes.store (x : EntityAttributes) (name : String) (v : JSON) :
    Except Error EntityAttributes :=
  if name = "friendly_name" then
    (storeString v x.FriendlyName).map fun s => { x with FriendlyName := s }
  else .ok x

/-- Storing one member into an `Entity`, by the `json` tags of its fields. -/
def Entity.store (x : Entity) (name : String) (v : JSON) : Except Error Entity :=
  if name = "entity_id" then (storeString v x.EntityID).map fun s => { x with EntityID := s }
  else if name = "state" then (storeString v x.State).map fun s => { x with State := s }
  else if name = "attributes" then
    (storeStruct ["friendly_name"] EntityAttributes.store v x.Attributes).map
      fun a => { x with Attributes := a }
  else if name = "last_changed" then
    (storeString v x.LastChanged).map fun s => { x with LastChanged := s }
  else if name = "last_updated" then
    (storeString v x.LastUpdated).map fun s => { x with LastUpdated := s }
  else .ok x

/-- Storing one member into a `HistoryStateAttribute`: the tag of
`UnitOfMeasurement` is `unit_of_measurement`, the tag of `FriendlyName` is
`state`. -/
def HistoryStateAttribute.store (x : HistoryStateAttribute) (name : String) (v : JSON) :
    Except Error HistoryStateAttribute :=
  if name = "unit_of_measurement" then
    (storeString v x.UnitOfMeasurement).map fun s => { x with UnitOfMeasurement := s }
  else if name = "state" then
    (storeString v x.FriendlyName).map fun s => { x with FriendlyName := s }
  else .ok x

/-- Storing a JSON value into a `HistoryStateAttribute`. -/
def storeHistoryStateAttribute (v : JSON) (old : HistoryStateAttribute) :
    Except Error HistoryStateAttribute :=
  storeStruct ["unit_of_measurement", "state"] HistoryStateAttribute.store v old

/-- Storing one member into a `HistoryState`, by the `json` tags of its fields. -/
def HistoryState.store (x : HistoryState) (name : String) (v : JSON) :
    Except Error HistoryState :=
  if name = "entity_id" then (storeString v x.EntityID).map fun s => { x with EntityID := s }
  else if name = "state" then (storeString v x.State).map fun s => { x with State := s }
  else if name = "last_changed" then
    (storeString v x.LastChanged).map fun s => { x with LastChanged := s }
  else if name = "last_updated" then
    (storeString v x.LastUpdated).map fun s => { x with LastUpdated := s }
  else if name = "attributes" then
    (storeHistoryStateAttribute v x.Attributes).map fun a => { x with Attributes := a }
  else .ok x

/-- Storing a JSON value into a fresh element of a slice of pointers to
structs: `null` gives a nil pointer, an object a pointer to a new struct. -/
def storePointer {σ : Type} (names : List String)
    (store : σ → String → JSON → Except Error σ) (zero : σ) (v : JSON) :
    Except Error (Option σ) :=
  match v with
  | .null => .ok none
  | _ => (storeStruct names store v zero).map some

/-- Storing the elements of a JSON array into a slice, in order. -/
def storeElems {τ : Type} (elem : JSON → Except Error τ) : List JSON → Except Error (List τ)
  | [] => .ok []
  | v :: rest =>
    match elem v with
    | .error err => .error err
    | .ok x =>
      match storeElems elem rest with
      | .error err => .error err
      | .ok xs => .ok (x :: xs)

/-- Storing a JSON value into a nil slice: an array is stored element by
element, `null` leaves the slice nil, anything else is an
`UnmarshalTypeError`. -/
def storeSlice {τ : Type} (elem : JSON → Except Error τ) (v : JSON) : Except Error (List τ) :=
  match v with
  | .array elems => storeElems elem elems
  | .null => .ok []
  | _ => .error .decode

/-- Go `json.NewDecoder(body).Decode(&v)`: read the first JSON value of the
body (an error when there is none) and store it with `store`. -/
def Decode {τ : Type} (store : JSON → Except Error τ) (body : String) : Except Error τ :=
  match readValue body with
  | none => .error .decode
  | some (v, _) => store v

/-- `Decode(&states)` for `var states []*State`. -/
def decodeStates (body : String) : Except Error (List (Option State)) :=
  Decode (storeSlice (storePointer ["entity_id", "state"] State.store ⟨"", ""⟩)) body

/-- `Decode(&entity)` for `var entity Entity`. -/
def decodeEntity (body : String) : Except Error Entity :=
  Decode (fun v => storeStruct
    ["entity_id", "state", "attributes", "last_changed", "last_updated"]
    Entity.store v ⟨"", "", ⟨""⟩, "", ""⟩) body

/-- `Decode(&history)` for `var history []*HistoryState`. -/
def decodeHistory (body : String) : Except Error (List (Option HistoryState)) :=
  Decode (storeSlice (storePointer
    ["entity_id", "state", "last_changed", "last_updated", "attributes"]
    HistoryState.store ⟨"", "", "", "", ⟨"", ""⟩⟩)) body

/-! ## `net/http` -/

/-- Go `*url.Userinfo`. -/
structure Userinfo where
  username : String
  password : String
  passwordSet : Bool
deriving DecidableEq, Repr

/-- Go `url.URL`: a URL as `url.Parse` reads it. `Path` and `Fragment` are held
decoded, `RawQuery` as written; `URL.String()` and the transport write them out
again, escaped where needed. -/
structure URL where
  Scheme : String
  Opaque : String
  User : Option Userinfo
  Host : String
  Path : String
  RawPath : String
  OmitHost : Bool
  ForceQuery : Bool
  RawQuery : String
  Fragment : String
  RawFragment : String
deriving DecidableEq, Repr

/-- Go `*http.Request`, as far as `http.NewRequest` and the client fill it: the
method, the parsed URL, the headers, the body and the host. (The other fields
are constants, `Proto` and the like, or follow from the body, as
`ContentLength` does.) -/
structure Request where
  Method : String
  URL : URL
  Header : List (String × String)
  Body : Option String
  Host : String
deriving DecidableEq, Repr

/-- Go `*http.Response`, as far as the client could look at it. -/
structure Response where
  StatusCode : Nat
  Body : String
deriving DecidableEq, Repr

/-- Go `req.Header.Set(key, value)`: the value replaces what the key had. The
two keys the client sets, `Authorization` and `Content-Type`, are already in
canonical form. -/
def Request.SetHeader (req : Request) (key value : String) : Request :=
  { req with Header := req.Header.filter (fun p => !(p.1 == key)) ++ [(key, value)] }

/-- Go `net/url.stringContainsCTLByte`: a byte below 0x20, or 0x7f. -/
def stringContainsCTLByte (s : List Char) : Bool :=
  s.any fun c => c.toNat < 0x20 || c.toNat = 0x7f

/-- Go `url.Parse(rawURL)`. The text before the first `#` is refused when it
holds a control byte (the first check of `url.parse`); what the rest of
`url.Parse` makes of the text, a `url.URL` or an error, is the parameter
`parse`. -/
def urlParse (parse : String → Option URL) (rawURL : String) : Except Error URL :=
  if stringContainsCTLByte (rawURL.data.takeWhile fun c => c != '#') then
    .error (.request rawURL)
  else
    match parse rawURL with
    | some u => .ok u
    | none => .error (.request rawURL)

/-- Go `strings.LastIndex(s, c)` for a one-character `c`, counted in
characters: -1 when `c` does not occur. -/
def lastIndex (s : List Char) (c : Char) : Int :=
  (s.foldl (fun (p : Int × Int) x => (p.1 + 1, if x = c then p.1 else p.2)) (0, -1)).2

/-- Go `net/http.hasPort`: the last `:` comes after the last `]`. (The order
of two positions is the same counted in bytes and in characters.) -/
def hasPort (s : String) : Bool :=
  lastIndex s.data ':' > lastIndex s.data ']'

/-- Go `net/http.removeEmptyPort`: `host:` becomes `host`. -/
def removeEmptyPort (host : String) : String :=
  if hasPort host then
    if host.data.getLast? = some ':' then String.mk host.data.dropLast else host
  else host

/-- Go `http.NewRequest(method, url, body)` for the methods `GET` and `POST`:
the error of `url.Parse` when the URL does not parse, else a request for the
parsed URL, an empty port removed from its host, with no headers. -/
def NewRequest (parse : String → Option URL) (method url : String) (body : Option String) :
    Except Error Request :=
  match urlParse parse url with
  | .error err => .error err
  | .ok u =>
    let host := removeEmptyPort u.Host
    .ok ⟨method, { u with Host := host }, [], body, host⟩

/-- What an operation does to the outside, in order. -/
inductive Event where
  | newRequest (method url : String) (body : Option String)
  | roundTrip (req : Request)
  | print (text : String)
deriving DecidableEq, Repr

/-- Source `HomeAssistant`. The field `client` is the transport: what
`h.client.Do(req)` returns for a request, a response (of whatever status) or an
error. -/
structure HomeAssistant where
  baseURL : String
  token : String
  client : Request → Except Error Response

/-! ## The client operations -/

/-- Source `GetStates`. The result is `(states, nil)` or `(nil, err)`, with the
effects performed. -/
def HomeAssistant.GetStates (parse : String → Option URL) (h : HomeAssistant) :
    Except Error (List (Option State)) × List Event :=
  let url := h.baseURL ++ "/api/states"
  match NewRequest parse "GET" url none with
  | .error err => (.error err, [.newRequest "GET" url none])
  | .ok req =>
    let req := req.SetHeader "Authorization" ("Bearer " ++ h.token)
    let req := req.SetHeader "Content-Type" "application/json"
    match h.client req with
    | .error err => (.error err, [.newRequest "GET" url none, .roundTrip req])
    | .ok resp =>
      match decodeStates resp.Body with
      | .error err => (.error err, [.newRequest "GET" url none, .roundTrip req])
      | .ok states => (.ok states, [.newRequest "GET" url none, .roundTrip req])

/-- Source `GetEntity`. -/
def HomeAssistant.GetEntity (parse : String → Option URL) (h : HomeAssistant) (entityID : String) :
    Except Error Entity × List Event :=
  let url := h.baseURL ++ "/api/states/" ++ entityID
  match NewRequest parse "GET" url none with
  | .error err => (.error err, [.newRequest "GET" url none])
  | .ok req =>
    let req := req.SetHeader "Authorization" ("Bearer " ++ h.token)
    let req := req.SetHeader "Content-Type" "application/json"
    match h.client req with
    | .error err => (.error err, [.newRequest "GET" url none, .roundTrip req])
    | .ok resp =>
      match decodeEntity resp.Body with
      | .error err => (.error err, [.newRequest "GET" url none, .roundTrip req])
      | .ok entity => (.ok entity, [.newRequest "GET" url none, .roundTrip req])

/-- Source `CallService`. The payload type and `json.Marshal` at that type are
parameters. The result is the returned `error`, `none` for nil. -/
def HomeAssistant.CallService {α : Type} (parse : String → Option URL)
    (Marshal : α → Except Error String) (h : HomeAssistant)
    (domain service : String) (data : α) : Option Error × List Event :=
  match Marshal data with
  | .error err => (some err, [])
  | .ok payload =>
    let url := h.baseURL ++ "/api/services/" ++ domain ++ "/" ++ service
    match NewRequest parse "POST" url (some payload) with
    | .error err => (some err, [.newRequest "POST" url (some payload)])
    | .ok req =>
      let req := req.SetHeader "Authorization" ("Bearer " ++ h.token)
      let req := req.SetHeader "Content-Type" "application/json"
      match h.client req with
      | .error err => (some err, [.newRequest "POST" url (some payload), .roundTrip req])
      | .ok _ => (none, [.newRequest "POST" url (some payload), .roundTrip req])

/-- The `queryParams` that `GetHistory` has built when it encodes them.
`entityIds` is `none` for a nil slice. -/
def historyQuery (entityIds : Option (List String)) (endTime : Time)
    (minimalResponse noAttributes significantChangesOnly : Bool) : Values :=
  let queryParams := Values.empty
  let queryParams :=
    match entityIds with
    | some ids =>
      if ids.length > 0 then queryParams.Set "filter_entity_id" (Join ids ",") else queryParams
    | none => queryParams
  let queryParams :=
    if !endTime.IsZero then queryParams.Set "end_time" (dateFormat endTime) else queryParams
  let queryParams :=
    if minimalResponse then queryParams.Set "minimal_response" "" else queryParams
  let queryParams :=
    if noAttributes then queryParams.Set "no_attributes" "" else queryParams
  let queryParams :=
    if significantChangesOnly then queryParams.Set "significant_changes_only" ""
    else queryParams
  queryParams

/-- The `fullUrl` of `GetHistory`: `apiUrl + "?" + queryParams.Encode()`. -/
def historyURL (h : HomeAssistant) (startTime : Time) (entityIds : Option (List String))
    (endTime : Time) (minimalResponse noAttributes significantChangesOnly : Bool) : String :=
  let apiUrl := h.baseURL ++ "/api/history/period/" ++ dateFormat startTime
  apiUrl ++ "?" ++
    (historyQuery entityIds endTime minimalResponse noAttributes significantChangesOnly).Encode

/-- Source `GetHistory`. -/
def HomeAssistant.GetHistory (parse : String → Option URL) (h : HomeAssistant) (startTime : Time)
    (entityIds : Option (List String)) (endTime : Time)
    (minimalResponse noAttributes significantChangesOnly : Bool) :
    Except Error (List (Option HistoryState)) × List Event :=
  if startTime.IsZero then
    (.error (.new "startTime parameter is null or not provided"), [])
  else
    let fullUrl := historyURL h startTime entityIds endTime minimalResponse noAttributes
      significantChangesOnly
    let printed := Event.print ("Hass url: " ++ fullUrl ++ "\n")
    match NewRequest parse "GET" fullUrl none with
    | .error err => (.error err, [printed, .newRequest "GET" fullUrl none])
    | .ok req =>
      let req := req.SetHeader "Authorization" ("Bearer " ++ h.token)
      let req := req.SetHeader "Content-Type" "application/json"
      match h.client req with
      | .error err => (.error err, [printed, .newRequest "GET" fullUrl none, .roundTrip req])
      | .ok resp =>
        match decodeHistory resp.Body with
        | .error err =>
          (.error err, [printed, .newRequest "GET" fullUrl none, .roundTrip req])
        | .ok history =>
          (.ok history, [printed, .newRequest "GET" fullUrl none, .roundTrip req])

/-- The requests an operation handed to the transport. -/
def roundTrips : List Event → List Request
  | [] => []
  | .roundTrip req :: rest => req :: roundTrips rest
  | _ :: rest => roundTrips rest

/-- The calls of `http.NewRequest` an operation made: method and URL. -/
def built : List Event → List (String × String)
  | [] => []
  | .newRequest method url _ :: rest => (method, url) :: built rest
  | _ :: rest => built rest

/-! ## `json.Marshal` at one payload type -/

/-- Go `hex[i]` of `encoding/json`, for `hex = "0123456789abcdef"`. -/
def lowerhex (i : Nat) : Char :=
  "0123456789abcdef".data.getD i '0'

/-- What `json.appendString` (with HTML escaping, as `Marshal` has it) writes
for one character of a string. -/
def quoteChar (c : Char) : List Char :=
  if c = '\\' || c = '"' then [ '\\', c ]
  else if c.toNat = 8 then [ '\\', 'b' ]
  else if c.toNat = 12 then [ '\\', 'f' ]
  else if c = '\n' then [ '\\', 'n' ]
  else if c = '\r' then [ '\\', 'r' ]
  else if c = '\t' then [ '\\', 't' ]
  else if c.toNat < 0x20 || c = '<' || c = '>' || c = '&' then
    [ '\\', 'u', '0', '0', lowerhex (c.toNat / 16), lowerhex (c.toNat % 16) ]
  else if c.toNat = 0x2028 then [ '\\', 'u', '2', '0', '2', '8' ]
  else if c.toNat = 0x2029 then [ '\\', 'u', '2', '0', '2', '9' ]
  else [c]

/-- Go `json.appendString`: a quoted JSON string. -/
def quoteString (s : String) : String :=
  String.mk ([ '"' ] ++ s.data.flatMap quoteChar ++ [ '"' ])

/-- Go `json.Marshal` of a `map[string]string`, given as its entries (each key
once): an object with the keys sorted. It never fails. -/
def MarshalStringMap (m : List (String × String)) : Except Error String :=
  let get := fun k => match m.find? (fun p => p.1 == k) with
    | some p => p.2
    | none => ""
  let members := (sortKeys (m.map Prod.fst)).map fun k =>
    quoteString k ++ ":" ++ quoteString (get k)
  .ok ("\x7b" ++ Join members "," ++ "\x7d")

/-! ## Reading a query string back -/

/-- The pieces of a text between its `&` characters. -/
def splitAmp : List Char → List (List Char)
  | [] => [[]]
  | c :: cs =>
    if c = '&' then [] :: splitAmp cs
    else
      match splitAmp cs with
      | [] => [[c]]
      | p :: ps => (c :: p) :: ps

/-- The `key=value` segments of a query string, cut the way `url.ParseQuery`
cuts them: at every `&`, empty pieces dropped. -/
def querySegments (q : String) : List String :=
  ((splitAmp q.data).filter fun p => !p.isEmpty).map String.mk

/-- The key of a segment as written: the text before its first `=`. -/
def segmentKey (seg : String) : String :=
  String.mk (seg.data.takeWhile fun c => c != '=')

/-- Whether a query string has a segment with the given key. -/
def hasParam (q key : String) : Bool :=
  (querySegments q).any fun seg => segmentKey seg == key

/-- The entity IDs of a call: none for a nil slice. -/
def idsOf : Option (List String) → List String
  | some ids => ids
  | none => []

/-! ## What the decoded attributes hold -/

/-- The `json` names of the fields of `HistoryStateAttribute`. -/
def attributeNames : List String := ["unit_of_measurement", "state"]

/-- The `json` names of the fields of `HistoryState`. -/
def historyStateNames : List String :=
  ["entity_id", "state", "last_changed", "last_updated", "attributes"]

/-- What a `string` field holds after the members of an object have been
stored: the value of the last member that is stored into the field (its key
matches the field name `name`) and is a string, else what it held before. -/
def lastString (names : List String) (name : String) : List (String × JSON) → String → String
  | [], cur => cur
  | (key, v) :: rest, cur =>
    if matchField names key = some name then
      match v with
      | .string s => lastString names name rest s
      | _ => lastString names name rest cur
    else lastString names name rest cur

/-- The members of the `attributes` objects of a history element, in order:
the members of every object that is the value of a key stored into the field
`Attributes`. -/
def attrMembers : List (String × JSON) → List (String × JSON)
  | [] => []
  | (key, v) :: rest =>
    if matchField historyStateNames key = some "attributes" then
      match v with
      | .object a => a ++ attrMembers rest
      | _ => attrMembers rest
    else attrMembers rest

/-- How an element `v` of the response array and the entry `r` of the result of
`GetHistory` go together: `null` gives a nil pointer; an object gives a
`HistoryState` whose attribute fields are the last strings stored under the
keys matching `state` and `unit_of_measurement` in the `attributes` objects,
whether or not there are `friendly_name` keys, and are empty when no key
matches. -/
def decodedFrom (v : JSON) (r : Option HistoryState) : Prop :=
  (v = .null ∧ r = none) ∨
  ∃ ms hs, v = .object ms ∧ r = some hs ∧
    hs.Attributes.FriendlyName = lastString attributeNames "state" (attrMembers ms) "" ∧
    hs.Attributes.UnitOfMeasurement =
      lastString attributeNames "unit_of_measurement" (attrMembers ms) "" ∧
    hs.Attributes.FriendlyName = lastString attributeNames "state"
      ((attrMembers ms).filter fun p => !(p.1 == "friendly_name")) "" ∧
    ((∀ p ∈ attrMembers ms, matchField attributeNames p.1 ≠ some "state") →
      hs.Attributes.FriendlyName = "") ∧
    ((∀ p ∈ attrMembers ms, matchField attributeNames p.1 ≠ some "unit_of_measurement") →
      hs.Attributes.UnitOfMeasurement = "")

/-! ## The shape a response body is expected to have -/

/-- A value that is stored into a `string` field without error. -/
def stringOrNull : JSON → Bool
  | .string _ => true
  | .null => true
  | _ => false

/-- The members of an object are stored into a struct without error: every
member whose key matches a field has a value that fits the field. -/
def membersFit (names : List String) (fits : String → JSON → Bool)
    (ms : List (String × JSON)) : Bool :=
  ms.all fun p =>
    match matchField names p.1 with
    | none => true
    | some name => fits name p.2

/-- A value that is stored into a struct (or a pointer to one) without error:
`null`, or an object whose members fit. -/
def structFits (names : List String) (fits : String → JSON → Bool) : JSON → Bool
  | .object ms => membersFit names fits ms
  | .null => true
  | _ => false

/-- A value that is stored into a slice without error: `null`, or an array
whose elements fit. -/
def sliceFits (elemFits : JSON → Bool) : JSON → Bool
  | .array elems => elems.all elemFits
  | .null => true
  | _ => false

/-- The shape `GetStates` expects of an element: the fields of `State`. -/
def stateFits : JSON → Bool :=
  structFits ["entity_id", "state"] fun _ v => stringOrNull v

/-- The shape `GetEntity` expects: the fields of `Entity`. -/
def entityFits : JSON → Bool :=
  structFits ["entity_id", "state", "attributes", "last_changed", "last_updated"] fun name v =>
    if name = "attributes" then structFits ["friendly_name"] (fun _ w => stringOrNull w) v
    else stringOrNull v

/-- The shape `GetHistory` expects of an element: the fields of
`HistoryState`. -/
def historyStateFits : JSON → Bool :=
  structFits historyStateNames fun name v =>
    if name = "attributes" then structFits attributeNames (fun _ w => stringOrNull w) v
    else stringOrNull v

/-- The headers every request of the client carries. -/
def stdHeader (h : HomeAssistant) : List (String × String) :=
  [("Authorization", "Bearer " ++ h.token), ("Content-Type", "application/json")]

/-- The segments the query of `GetHistory` is expected to consist of, in the
order of their keys. -/
def historySegments (entityIds : Option (List String)) (endTime : Time)
    (minimalResponse noAttributes significantChangesOnly : Bool) : List String :=
  (if endTime.IsZero then [] else ["end_time=" ++ QueryEscape (dateFormat endTime)]) ++
  (if (idsOf entityIds).isEmpty then []
    else ["filter_entity_id=" ++ QueryEscape (Join (idsOf entityIds) ",")]) ++
  (if minimalResponse then ["minimal_response="] else []) ++
  (if noAttributes then ["no_attributes="] else []) ++
  (if significantChangesOnly then ["significant_changes_only="] else [])

/-- The request the client hands to the transport for a method, a parsed URL
and a body: what `http.NewRequest` builds from them, with the two headers
set. -/
def HomeAssistant.request (h : HomeAssistant) (method : String) (u : URL)
    (body : Option String) : Request :=
  ⟨method, { u with Host := removeEmptyPort u.Host }, stdHeader h, body, removeEmptyPort u.Host⟩

/-- The calls of `http.NewRequest` an operation made: method, URL and body. -/
def builtWith : List Event → List (String × String × Option String)
  | [] => []
  | .newRequest method url body :: rest => (method, url, body) :: builtWith rest
  | _ :: rest => builtWith rest

/-- The URL `http://hass.local:8123` followed by a path and a query, as
`url.Parse` reads it. -/
def exampleURL (path : String) (forceQuery : Bool) (rawQuery : String) : URL :=
  ⟨"http", "", none, "hass.local:8123", path, "", false, forceQuery, rawQuery, "", ""⟩

/-- What `url.Parse` returns for the URLs of the examples below. The table
says nothing of other texts (it has `none` for them). -/
def exampleParse (rawURL : String) : Option URL :=
  if rawURL = "http://hass.local:8123/api/states" then some (exampleURL "/api/states" false "")
  else if rawURL = "http://hass.local:8123/api/states/sensor.x" then
    some (exampleURL "/api/states/sensor.x" false "")
  else if rawURL = "http://hass.local:8123/api/states/sun.sun" then
    some (exampleURL "/api/states/sun.sun" false "")
  else if rawURL = "http://hass.local:8123/api/services/light/turn_on" then
    some (exampleURL "/api/services/light/turn_on" false "")
  else if rawURL = "http://hass.local:8123/api/history/period/2024-01-01T00:00:00Z?" then
    some (exampleURL "/api/history/period/2024-01-01T00:00:00Z" true "")
  else if rawURL = "http://hass.local:8123/api/history/period/2024-01-01T00:00:00Z" ++
      "?filter_entity_id=a%2Cb&minimal_response=" then
    some (exampleURL "/api/history/period/2024-01-01T00:00:00Z" false
      "filter_entity_id=a%2Cb&minimal_response=")
  else if rawURL = "http://hass.local:/api/states" then
    some ⟨"http", "", none, "hass.local:", "/api/states", "", false, false, "", "", ""⟩
  else none

/-- A stand-in for the rest of `url.Parse` that refuses nothing: with it, only
the check for control bytes refuses a URL. -/
def acceptAll (_ : String) : Option URL :=
  some (exampleURL "" false "")

/-! ## The grammar of JSON texts (RFC 8259) -/

/-- JSON white space (RFC 8259, section 2). -/
def Ws (w : List Char) : Prop := ∀ c ∈ w, isSpace c = true

/-- A run of decimal digits, possibly empty. -/
def Digits (ds : List Char) : Prop := ∀ c ∈ ds, isDigit c = true

/-- A hexadecimal digit. -/
def isHex (c : Char) : Bool :=
  ('0' ≤ c && c ≤ '9') || ('a' ≤ c && c ≤ 'f') || ('A' ≤ c && c ≤ 'F')

/-- The letters that may follow a backslash in a JSON string, `u` apart. -/
def isEscapeLetter (c : Char) : Bool :=
  c = '"' || c = '\\' || c = '/' || c = 'b' || c = 'f' || c = 'n' || c = 'r' || c = 't'

/-- The grammar rule `int = zero / ( digit1-9 *DIGIT )`. -/
def IntPart (t : List Char) : Prop :=
  t = ['0'] ∨ ∃ d ds, t = d :: ds ∧ ('1' ≤ d ∧ d ≤ '9') ∧ Digits ds

/-- The grammar rule `[ frac ]`, `frac = decimal-point 1*DIGIT`. -/
def FracOpt (t : List Char) : Prop :=
  t = [] ∨ ∃ d ds, t = '.' :: d :: ds ∧ isDigit d = true ∧ Digits ds

/-- The grammar rule `[ minus / plus ]` inside an exponent. -/
def ExpSign (s : List Char) : Prop :=
  s = [] ∨ s = ['+'] ∨ s = ['-']

/-- The grammar rule `[ exp ]`, `exp = e [ minus / plus ] 1*DIGIT`. -/
def ExpOpt (t : List Char) : Prop :=
  t = [] ∨ ∃ e s d ds, t = e :: (s ++ d :: ds) ∧ (e = 'e' ∨ e = 'E') ∧ ExpSign s ∧
    isDigit d = true ∧ Digits ds

/-- The grammar rule `number = [ minus ] int [ frac ] [ exp ]`. -/
def NumberText (t : List Char) : Prop :=
  ∃ i f e, (t = i ++ f ++ e ∨ t = '-' :: (i ++ f ++ e)) ∧ IntPart i ∧ FracOpt f ∧ ExpOpt e

/-- The text between the quotation marks of a JSON string: unescaped
characters (no quotation mark, no backslash, no control character), two-letter
escapes, and `\u` followed by four hexadecimal digits. -/
inductive StringBody : List Char → Prop
  | nil : StringBody []
  | char (c : Char) (rest : List Char) : c ≠ '"' → c ≠ '\\' → 0x20 ≤ c.toNat →
      StringBody rest → StringBody (c :: rest)
  | escape (c : Char) (rest : List Char) : isEscapeLetter c = true →
      StringBody rest → StringBody ('\\' :: c :: rest)
  | unicode (a b c d : Char) (rest : List Char) : isHex a = true → isHex b = true →
      isHex c = true → isHex d = true → StringBody rest →
      StringBody ('\\' :: 'u' :: a :: b :: c :: d :: rest)

mutual
/-- A JSON value as a text (RFC 8259): a literal name, a number, a string, an
array or an object. -/
inductive JValue : List Char → Prop
  | null : JValue ['n', 'u', 'l', 'l']
  | true : JValue ['t', 'r', 'u', 'e']
  | false : JValue ['f', 'a', 'l', 's', 'e']
  | number (t : List Char) : NumberText t → JValue t
  | string (s : List Char) : StringBody s → JValue ('"' :: (s ++ ['"']))
  | array (body : List Char) : ArrBody body → JValue ('[' :: body)
  | object (body : List Char) : ObjBody body → JValue ('\x7b' :: body)
/-- What follows the `[` of an array: white space and `]`, or a first element
and the rest. -/
inductive ArrBody : List Char → Prop
  | empty (w : List Char) : Ws w → ArrBody (w ++ [']'])
  | elems (w v r : List Char) : Ws w → JValue v → ArrTail r → ArrBody (w ++ v ++ r)
/-- What follows an element of an array: white space, then `]`, or `,` and
another element and the rest. -/
inductive ArrTail : List Char → Prop
  | close (w : List Char) : Ws w → ArrTail (w ++ [']'])
  | more (w w2 v r : List Char) : Ws w → Ws w2 → JValue v → ArrTail r →
      ArrTail (w ++ ',' :: (w2 ++ v ++ r))
/-- What follows the `\x7b` of an object: white space and `\x7d`, or a first
key and the rest. -/
inductive ObjBody : List Char → Prop
  | empty (w : List Char) : Ws w → ObjBody (w ++ ['\x7d'])
  | members (w s k : List Char) : Ws w → StringBody s → AfterKey k →
      ObjBody (w ++ '"' :: (s ++ '"' :: k))
/-- What follows the key of a member: white space, `:`, the value and the
rest of the object. -/
inductive AfterKey : List Char → Prop
  | mk (w w2 v r : List Char) : Ws w → Ws w2 → JValue v → ObjTail r →
      AfterKey (w ++ ':' :: (w2 ++ v ++ r))
/-- What follows a member of an object: white space, then `\x7d`, or `,` and
another member and the rest. -/
inductive ObjTail : List Char → Prop
  | close (w : List Char) : Ws w → ObjTail (w ++ ['\x7d'])
  | more (w w2 s k : List Char) : Ws w → Ws w2 → StringBody s → AfterKey k →
      ObjTail (w ++ ',' :: (w2 ++ '"' :: (s ++ '"' :: k)))
end

example : QueryEscape "a,b" = "a%2Cb" := by decide
example : QueryEscape "2024-01-02T03:04:05Z" = "2024-01-02T03%3A04%3A05Z" := by decide
example : QueryEscape "a b/é" = "a+b%2F%C3%A9" := by decide
example : Values.Encode ((Values.empty.Set "minimal_response" "").Set "end_time" "x y") =
    "end_time=x+y&minimal_response=" := by decide
example : dateFormat ⟨0, 0, UTC⟩ = "0001-01-01T00:00:00Z" := by decide
example : dateFormat ⟨62135596800, 0, UTC⟩ = "1970-01-01T00:00:00Z" := by decide
example : dateFormat ⟨62135596800 + 951782400, 0, UTC⟩ = "2000-02-29T00:00:00Z" := by decide
example : dateFormat ⟨62135596800 + 4102444799, 0, UTC⟩ = "2099-12-31T23:59:59Z" := by decide
example : dateFormat ⟨63839664000 + 3723, 5, ⟨fun _ => 3600⟩⟩ = "2024-01-01T01:02:03Z" := by decide
example : Time.FormatRFC3339 ⟨63839664000 + 3723, 5, ⟨fun _ => -3600 - 1800⟩⟩ = "2023-12-31T23:32:03-01:30" := by decide
example : dateFormat ⟨315537897600, 0, UTC⟩ = "10000-01-01T00:00:00Z" := by decide
example : dateFormat ⟨-1, 0, UTC⟩ = "0000-12-31T23:59:59Z" := by decide
example : dateFormat ⟨-366 * 86400 - 1, 0, UTC⟩ = "-0001-12-31T23:59:59Z" := by decide
example : dateFormat ⟨63839664000 + 59 * 86400, 0, UTC⟩ = "2024-02-29T00:00:00Z" := by decide
example : dateFormat ⟨63839664000 + 365 * 86400, 0, UTC⟩ = "2024-12-31T00:00:00Z" := by decide
example : dateFormat ⟨-9223371966606163200, 0, UTC⟩ = "-292277022400-03-01T00:00:00Z" := by decide
example : dateFormat ⟨-9223371966606163201, 0, UTC⟩ = "292277026854-01-07T07:00:15Z" := by decide
example : removeEmptyPort "hass.local:" = "hass.local" := by decide
example : removeEmptyPort "hass.local:8123" = "hass.local:8123" := by decide
example : removeEmptyPort "[::1]:" = "[::1]" := by decide
example : removeEmptyPort "[::1]" = "[::1]" := by decide

theorem setHeader_std (h : HomeAssistant) (method : String) (u : URL) (body : Option String)
    (host : String) :
    ((Request.mk method u [] body host).SetHeader "Authorization"
      ("Bearer " ++ h.token)).SetHeader "Content-Type" "application/json" =
      ⟨method, u, stdHeader h, body, host⟩ := by
  simp [Request.SetHeader, stdHeader]

theorem newRequest_ok (parse : String → Option URL) (method url : String) (body : Option String)
    (u : URL) (hu : urlParse parse url = .ok u) :
    NewRequest parse method url body =
      .ok ⟨method, { u with Host := removeEmptyPort u.Host }, [], body, removeEmptyPort u.Host⟩ := by
  simp [NewRequest, hu]

theorem newRequest_error (parse : String → Option URL) (method url : String)
    (body : Option String) (err : Error) (hu : urlParse parse url = .error err) :
    NewRequest parse method url body = .error err := by
  simp [NewRequest, hu]

/-- C1. `GetHistory` with a start time that `IsZero` (the zero value
`time.Time` is one) returns the validation error, with no result, and performs
no effect at all: no request is built, none is handed to the transport. This
holds for every client, entity list, end time and flags. -/
theorem getHistory_zero_startTime (parse : String → Option URL) (h : HomeAssistant)
    (startTime : Time) (entityIds : Option (List String)) (endTime : Time)
    (minimalResponse noAttributes significantChangesOnly : Bool)
    (hz : startTime.IsZero = true) :
    h.GetHistory parse startTime entityIds endTime minimalResponse noAttributes
        significantChangesOnly =
      (.error (.new "startTime parameter is null or not provided"), []) ∧
    built (h.GetHistory parse startTime entityIds endTime minimalResponse noAttributes
        significantChangesOnly).2 = [] ∧
    roundTrips (h.GetHistory parse startTime entityIds endTime minimalResponse noAttributes
        significantChangesOnly).2 = [] := by
  simp [HomeAssistant.GetHistory, hz, built, roundTrips]

/-- C1 at the zero value `time.Time{}`, with entity IDs and flags set. -/
theorem getHistory_zero_startTime_witness :
    Time.zero.IsZero = true ∧
    HomeAssistant.GetHistory exampleParse
        ⟨"http://hass.local:8123", "secret", fun _ => .ok ⟨200, "[]"⟩⟩
        Time.zero (some ["sensor.x"]) Time.zero true false true =
      (.error (.new "startTime parameter is null or not provided"), []) :=
  ⟨by decide, (getHistory_zero_startTime _ _ _ _ _ _ _ _ (by decide)).1⟩

/-- The effects of `GetStates`: the request is built, and it is handed to the
transport when the URL is accepted, whatever comes back. -/
theorem getStates_events (parse : String → Option URL) (h : HomeAssistant) :
    (h.GetStates parse).2 =
      .newRequest "GET" (h.baseURL ++ "/api/states") none ::
        match urlParse parse (h.baseURL ++ "/api/states") with
        | .ok u => [.roundTrip (h.request "GET" u none)]
        | .error _ => [] := by
  unfold HomeAssistant.GetStates
  cases hu : urlParse parse (h.baseURL ++ "/api/states") with
  | error err =>
    simp only [newRequest_error parse _ _ _ err hu]
  | ok u =>
    simp only [newRequest_ok parse _ _ _ u hu, setHeader_std]
    cases h.client ⟨"GET", { u with Host := removeEmptyPort u.Host }, stdHeader h, none,
        removeEmptyPort u.Host⟩ with
    | error err => rfl
    | ok resp =>
      simp only []
      cases decodeStates resp.Body <;> rfl

/-- C6. For a base URL that is valid, in that `url.Parse` accepts
`baseURL + "/api/states"`, and any token, `GetStates` hands exactly one request
to the transport: the GET that `http.NewRequest` builds from the text
`baseURL + "/api/states"` and no body (its URL is that text as `url.Parse` reads
it, an empty port removed from the host), with the headers
`Authorization: Bearer ` followed by the token and
`Content-Type: application/json`. -/
theorem getStates_one_request (parse : String → Option URL) (h : HomeAssistant) (u : URL)
    (hvalid : urlParse parse (h.baseURL ++ "/api/states") = .ok u) :
    builtWith (h.GetStates parse).2 = [("GET", h.baseURL ++ "/api/states", none)] ∧
    roundTrips (h.GetStates parse).2 =
      [⟨"GET", { u with Host := removeEmptyPort u.Host },
        [("Authorization", "Bearer " ++ h.token), ("Content-Type", "application/json")],
        none, removeEmptyPort u.Host⟩] := by
  rw [getStates_events parse h, hvalid]
  exact ⟨rfl, rfl⟩

/-- C6 at a base URL with an empty port and a transport that fails: the one
request, for the host without the colon, is still handed to it. -/
theorem getStates_one_request_witness :
    urlParse exampleParse ("http://hass.local:" ++ "/api/states") =
      .ok ⟨"http", "", none, "hass.local:", "/api/states", "", false, false, "", "", ""⟩ ∧
    roundTrips (HomeAssistant.GetStates exampleParse
        ⟨"http://hass.local:", "secret", fun _ => .error (.transport "connection refused")⟩).2 =
      [⟨"GET", ⟨"http", "", none, "hass.local", "/api/states", "", false, false, "", "", ""⟩,
        [("Authorization", "Bearer secret"), ("Content-Type", "application/json")], none,
        "hass.local"⟩] :=
  ⟨by decide, (getStates_one_request exampleParse
    ⟨"http://hass.local:", "secret", fun _ => .error (.transport "connection refused")⟩
    ⟨"http", "", none, "hass.local:", "/api/states", "", false, false, "", "", ""⟩
    (by decide)).2⟩

/-- The effects of `GetEntity`. -/
theorem getEntity_events (parse : String → Option URL) (h : HomeAssistant) (entityID : String) :
    (h.GetEntity parse entityID).2 =
      .newRequest "GET" (h.baseURL ++ "/api/states/" ++ entityID) none ::
        match urlParse parse (h.baseURL ++ "/api/states/" ++ entityID) with
        | .ok u => [.roundTrip (h.request "GET" u none)]
        | .error _ => [] := by
  unfold HomeAssistant.GetEntity
  cases hu : urlParse parse (h.baseURL ++ "/api/states/" ++ entityID) with
  | error err =>
    simp only [newRequest_error parse _ _ _ err hu]
  | ok u =>
    simp only [newRequest_ok parse _ _ _ u hu, setHeader_std]
    cases h.client ⟨"GET", { u with Host := removeEmptyPort u.Host }, stdHeader h, none,
        removeEmptyPort u.Host⟩ with
    | error err => rfl
    | ok resp =>
      simp only []
      cases decodeEntity resp.Body <;> rfl

/-- When `http.NewRequest` refuses the URL, `GetEntity` returns its error. -/
theorem getEntity_refused (parse : String → Option URL) (h : HomeAssistant) (entityID : String)
    (err : Error) (hu : urlParse parse (h.baseURL ++ "/api/states/" ++ entityID) = .error err) :
    (h.GetEntity parse entityID).1 = .error err := by
  unfold HomeAssistant.GetEntity
  simp only [newRequest_error parse _ _ _ err hu]

/-- C7, as stated, fails: for the entity ID `sensor.x` followed by a newline,
`http.NewRequest` refuses the URL for its control character (the rest of
`url.Parse` is taken to refuse nothing), `GetEntity` returns that error, and
no GET is issued. -/
theorem getEntity_control_character_no_request :
    HomeAssistant.GetEntity acceptAll
        ⟨"http://hass.local:8123", "secret", fun _ => .ok ⟨200, "\x7b\x7d"⟩⟩ "sensor.x\n" =
      (.error (.request "http://hass.local:8123/api/states/sensor.x\n"),
       [.newRequest "GET" "http://hass.local:8123/api/states/sensor.x\n" none]) ∧
    roundTrips (HomeAssistant.GetEntity acceptAll
        ⟨"http://hass.local:8123", "secret", fun _ => .ok ⟨200, "\x7b\x7d"⟩⟩ "sensor.x\n").2 =
      [] := by
  decide

/-- C7, amended. For every base URL and every entity ID, `GetEntity` hands
`http.NewRequest` the method GET, no body and exactly the text
`baseURL + "/api/states/" + entityID`: the entity ID is put into the path as it
is, with no escaping and no other change. When `http.NewRequest` accepts the
text, exactly one request is issued, the GET it built from the text (its URL is
the text as `url.Parse` reads it), with the two headers; when it refuses the
text, `GetEntity` returns that error and issues no request. -/
theorem getEntity_request (parse : String → Option URL) (h : HomeAssistant)
    (entityID : String) :
    builtWith (h.GetEntity parse entityID).2 =
      [("GET", h.baseURL ++ "/api/states/" ++ entityID, none)] ∧
    (∀ u, urlParse parse (h.baseURL ++ "/api/states/" ++ entityID) = .ok u →
      roundTrips (h.GetEntity parse entityID).2 =
        [⟨"GET", { u with Host := removeEmptyPort u.Host },
          [("Authorization", "Bearer " ++ h.token), ("Content-Type", "application/json")],
          none, removeEmptyPort u.Host⟩]) ∧
    (∀ err, urlParse parse (h.baseURL ++ "/api/states/" ++ entityID) = .error err →
      (h.GetEntity parse entityID).1 = .error err ∧
      roundTrips (h.GetEntity parse entityID).2 = []) := by
  refine ⟨?_, ?_, ?_⟩
  · rw [getEntity_events]
    cases urlParse parse (h.baseURL ++ "/api/states/" ++ entityID) <;> rfl
  · intro u hu
    rw [getEntity_events, hu]
    rfl
  · intro err hu
    refine ⟨getEntity_refused parse h entityID err hu, ?_⟩
    rw [getEntity_events, hu]
    rfl

/-- C7, amended, at `GetEntity("sensor.x")`. -/
theorem getEntity_request_witness :
    urlParse exampleParse ("http://hass.local:8123" ++ "/api/states/" ++ "sensor.x") =
      .ok (exampleURL "/api/states/sensor.x" false "") ∧
    roundTrips (HomeAssistant.GetEntity exampleParse
        ⟨"http://hass.local:8123", "secret", fun _ => .ok ⟨200, "\x7b\x7d"⟩⟩ "sensor.x").2 =
      [⟨"GET", ⟨"http", "", none, "hass.local:8123", "/api/states/sensor.x", "", false, false,
          "", "", ""⟩,
        [("Authorization", "Bearer secret"), ("Content-Type", "application/json")], none,
        "hass.local:8123"⟩] :=
  ⟨by decide, (getEntity_request exampleParse
    ⟨"http://hass.local:8123", "secret", fun _ => .ok ⟨200, "\x7b\x7d"⟩⟩ "sensor.x").2.1
    (exampleURL "/api/states/sensor.x" false "") (by decide)⟩

/-- The effects of `CallService` once the payload is serialized. -/
theorem callService_events {α : Type} (parse : String → Option URL)
    (Marshal : α → Except Error String) (h : HomeAssistant) (domain service : String)
    (data : α) (payload : String) (hm : Marshal data = .ok payload) :
    (h.CallService parse Marshal domain service data).2 =
      .newRequest "POST" (h.baseURL ++ "/api/services/" ++ domain ++ "/" ++ service)
          (some payload) ::
        match urlParse parse (h.baseURL ++ "/api/services/" ++ domain ++ "/" ++ service) with
        | .ok u => [.roundTrip (h.request "POST" u (some payload))]
        | .error _ => [] := by
  unfold HomeAssistant.CallService
  simp only [hm]
  cases hu : urlParse parse (h.baseURL ++ "/api/services/" ++ domain ++ "/" ++ service) with
  | error err =>
    simp only [newRequest_error parse _ _ _ err hu]
  | ok u =>
    simp only [newRequest_ok parse _ _ _ u hu, setHeader_std]
    cases h.client ⟨"POST", { u with Host := removeEmptyPort u.Host }, stdHeader h, some payload,
        removeEmptyPort u.Host⟩ <;> rfl

/-- What `CallService` returns once the payload is serialized. -/
theorem callService_result {α : Type} (parse : String → Option URL)
    (Marshal : α → Except Error String) (h : HomeAssistant) (domain service : String)
    (data : α) (payload : String) (hm : Marshal data = .ok payload) :
    (h.CallService parse Marshal domain service data).1 =
      match urlParse parse (h.baseURL ++ "/api/services/" ++ domain ++ "/" ++ service) with
      | .ok u =>
        match h.client (h.request "POST" u (some payload)) with
        | .ok _ => none
        | .error err => some err
      | .error err => some err := by
  unfold HomeAssistant.CallService
  simp only [hm]
  cases hu : urlParse parse (h.baseURL ++ "/api/services/" ++ domain ++ "/" ++ service) with
  | error err =>
    simp only [newRequest_error parse _ _ _ err hu]
  | ok u =>
    simp only [newRequest_ok parse _ _ _ u hu, setHeader_std, HomeAssistant.request]
    cases h.client ⟨"POST", { u with Host := removeEmptyPort u.Host }, stdHeader h, some payload,
        removeEmptyPort u.Host⟩ <;> rfl

/-- C5, as stated, fails: for the domain `light` followed by a newline,
`http.NewRequest` refuses the URL for its control character (the rest of
`url.Parse` is taken to refuse nothing), `CallService` returns that error, and
no POST is issued. -/
theorem callService_control_character_no_request :
    HomeAssistant.CallService acceptAll MarshalStringMap
        ⟨"http://hass.local:8123", "secret", fun _ => .ok ⟨200, ""⟩⟩
        "light\n" "turn_on" [("entity_id", "light.y")] =
      (some (.request "http://hass.local:8123/api/services/light\n/turn_on"),
       [.newRequest "POST" "http://hass.local:8123/api/services/light\n/turn_on"
          (some "\x7b\"entity_id\":\"light.y\"\x7d")]) ∧
    roundTrips (HomeAssistant.CallService acceptAll MarshalStringMap
        ⟨"http://hass.local:8123", "secret", fun _ => .ok ⟨200, ""⟩⟩
        "light\n" "turn_on" [("entity_id", "light.y")]).2 = [] := by
  decide

/-- C5, amended. For every payload that `json.Marshal` serializes and every
domain and service, `CallService` hands `http.NewRequest` the method POST, the
text `baseURL + "/api/services/" + domain + "/" + service` and the
serialization of the payload as body. When `http.NewRequest` accepts the text,
exactly one request is issued, the POST it built (its URL is the text as
`url.Parse` reads it) with that body and the two headers, and when the
transport returns a response, of whatever status and body, `CallService`
returns nil: neither is looked at. When `http.NewRequest` refuses the text,
`CallService` returns that error and issues nothing. -/
theorem callService_post_ignores_response {α : Type} (parse : String → Option URL)
    (Marshal : α → Except Error String) (h : HomeAssistant) (domain service : String)
    (data : α) (payload : String)
    (hm : Marshal data = .ok payload) :
    builtWith (h.CallService parse Marshal domain service data).2 =
      [("POST", h.baseURL ++ "/api/services/" ++ domain ++ "/" ++ service, some payload)] ∧
    (∀ u, urlParse parse (h.baseURL ++ "/api/services/" ++ domain ++ "/" ++ service) = .ok u →
      roundTrips (h.CallService parse Marshal domain service data).2 =
        [⟨"POST", { u with Host := removeEmptyPort u.Host },
          [("Authorization", "Bearer " ++ h.token), ("Content-Type", "application/json")],
          some payload, removeEmptyPort u.Host⟩] ∧
      ∀ resp : Response,
        h.client ⟨"POST", { u with Host := removeEmptyPort u.Host },
          [("Authorization", "Bearer " ++ h.token), ("Content-Type", "application/json")],
          some payload, removeEmptyPort u.Host⟩ = .ok resp →
        (h.CallService parse Marshal domain service data).1 = none) ∧
    (∀ err, urlParse parse (h.baseURL ++ "/api/services/" ++ domain ++ "/" ++ service) =
        .error err →
      (h.CallService parse Marshal domain service data).1 = some err ∧
      roundTrips (h.CallService parse Marshal domain service data).2 = []) := by
  have he := callService_events parse Marshal h domain service data payload hm
  have hr := callService_result parse Marshal h domain service data payload hm
  refine ⟨?_, ?_, ?_⟩
  · rw [he]
    cases urlParse parse (h.baseURL ++ "/api/services/" ++ domain ++ "/" ++ service) <;> rfl
  · intro u hu
    rw [hu] at he hr
    refine ⟨by rw [he]; rfl, ?_⟩
    intro resp hresp
    rw [hr]
    simp only [HomeAssistant.request, stdHeader, hresp]
  · intro err hu
    rw [hu] at he hr
    exact ⟨hr, by rw [he]; rfl⟩

/-- C5, amended, at `CallService("light", "turn_on", map[entity_id:light.y])`
with a transport that answers 500. -/
theorem callService_post_ignores_response_witness :
    MarshalStringMap [("entity_id", "light.y")] = .ok "\x7b\"entity_id\":\"light.y\"\x7d" ∧
    roundTrips (HomeAssistant.CallService exampleParse MarshalStringMap
        ⟨"http://hass.local:8123", "secret", fun _ => .ok ⟨500, "Internal Server Error"⟩⟩
        "light" "turn_on" [("entity_id", "light.y")]).2 =
      [⟨"POST", ⟨"http", "", none, "hass.local:8123", "/api/services/light/turn_on", "", false,
          false, "", "", ""⟩,
        [("Authorization", "Bearer secret"), ("Content-Type", "application/json")],
        some "\x7b\"entity_id\":\"light.y\"\x7d", "hass.local:8123"⟩] ∧
    (HomeAssistant.CallService exampleParse MarshalStringMap
        ⟨"http://hass.local:8123", "secret", fun _ => .ok ⟨500, "Internal Server Error"⟩⟩
        "light" "turn_on" [("entity_id", "light.y")]).1 = none :=
  have key := (callService_post_ignores_response exampleParse MarshalStringMap
    ⟨"http://hass.local:8123", "secret", fun _ => .ok ⟨500, "Internal Server Error"⟩⟩
    "light" "turn_on" [("entity_id", "light.y")] "\x7b\"entity_id\":\"light.y\"\x7d"
    (by decide)).2.1 (exampleURL "/api/services/light/turn_on" false "") (by decide)
  ⟨by decide, key.1, key.2 ⟨500, "Internal Server Error"⟩ rfl⟩

/-- When `http.NewRequest` refuses the URL, `GetStates` returns its error. -/
theorem getStates_refused (parse : String → Option URL) (h : HomeAssistant) (err : Error)
    (hu : urlParse parse (h.baseURL ++ "/api/states") = .error err) :
    (h.GetStates parse).1 = .error err := by
  unfold HomeAssistant.GetStates
  simp only [newRequest_error parse _ _ _ err hu]

theorem upperhex_ne (i : Nat) : upperhex i ≠ '&' ∧ upperhex i ≠ '=' := by
  unfold upperhex
  rcases Nat.lt_or_ge i 16 with hi | hi
  · interval_cases i <;> decide
  · have : "0123456789ABCDEF".data.length ≤ i := hi
    rw [List.getD_eq_default _ _ this]
    decide

theorem pctByte_ne (b : Nat) : ∀ c ∈ pctByte b, c ≠ '&' ∧ c ≠ '=' := by
  intro c hc
  simp only [pctByte, List.mem_cons, List.mem_singleton, List.not_mem_nil, or_false] at hc
  rcases hc with rfl | rfl | rfl
  · decide
  · exact upperhex_ne _
  · exact upperhex_ne _

theorem shouldEscape_amp (c : Char) (h : shouldEscape c = false) : c ≠ '&' ∧ c ≠ '=' := by
  constructor
  · rintro rfl
    revert h
    decide
  · rintro rfl
    revert h
    decide

theorem escapeChar_ne (x : Char) : ∀ c ∈ escapeChar x, c ≠ '&' ∧ c ≠ '=' := by
  intro c hc
  unfold escapeChar at hc
  split at hc
  · split at hc
    · simp only [List.mem_singleton] at hc
      subst hc
      decide
    · rw [List.mem_flatMap] at hc
      obtain ⟨b, _, hb⟩ := hc
      exact pctByte_ne b c hb
  · simp only [List.mem_singleton] at hc
    subst hc
    exact shouldEscape_amp _ (by simpa using ‹¬shouldEscape c = true›)

/-- `QueryEscape` writes neither `&` nor `=`. -/
theorem queryEscape_ne (s : String) : ∀ c ∈ (QueryEscape s).data, c ≠ '&' ∧ c ≠ '=' := by
  intro c hc
  simp only [QueryEscape, List.mem_flatMap] at hc
  obtain ⟨x, _, hx⟩ := hc
  exact escapeChar_ne x c hx

theorem splitAmp_of_no_amp (a : List Char) (ha : ∀ c ∈ a, c ≠ '&') : splitAmp a = [a] := by
  induction a with
  | nil => rfl
  | cons c cs ih =>
    have hc : c ≠ '&' := ha c (List.mem_cons_self _ _)
    have hcs : ∀ x ∈ cs, x ≠ '&' := fun x hx => ha x (List.mem_cons_of_mem _ hx)
    simp [splitAmp, hc, ih hcs]

theorem splitAmp_append (a b : List Char) (ha : ∀ c ∈ a, c ≠ '&') :
    splitAmp (a ++ '&' :: b) = a :: splitAmp b := by
  induction a with
  | nil => simp [splitAmp]
  | cons c cs ih =>
    have hc : c ≠ '&' := ha c (List.mem_cons_self _ _)
    have hcs : ∀ x ∈ cs, x ≠ '&' := fun x hx => ha x (List.mem_cons_of_mem _ hx)
    simp [splitAmp, hc, ih hcs]

theorem join_cons_cons (a b : String) (rest : List String) (sep : String) :
    (Join (a :: b :: rest) sep).data = a.data ++ sep.data ++ (Join (b :: rest) sep).data := by
  simp [Join, String.data_append]

/-- Cutting a query string that was joined from segments gives the segments
back, when none of them is empty or holds an `&`. -/
theorem querySegments_join (segs : List String)
    (h : ∀ seg ∈ segs, seg.data ≠ [] ∧ ∀ c ∈ seg.data, c ≠ '&') :
    querySegments (Join segs "&") = segs := by
  unfold querySegments
  induction segs with
  | nil => simp [Join, splitAmp]
  | cons a rest ih =>
    have ha := h a (List.mem_cons_self _ _)
    cases rest with
    | nil =>
      simp [Join, splitAmp_of_no_amp a.data ha.2, ha.1]
    | cons b rest =>
      have hrest : ∀ seg ∈ b :: rest, seg.data ≠ [] ∧ ∀ c ∈ seg.data, c ≠ '&' :=
        fun seg hseg => h seg (List.mem_cons_of_mem _ hseg)
      have hj := join_cons_cons a b rest "&"
      have hsplit : splitAmp (Join (a :: b :: rest) "&").data =
          a.data :: splitAmp (Join (b :: rest) "&").data := by
        rw [hj]
        have : ("&" : String).data = ['&'] := rfl
        rw [this, List.append_assoc, List.singleton_append]
        exact splitAmp_append _ _ ha.2
      have hne : (!a.data.isEmpty) = true := by simp [ha.1]
      rw [hsplit, List.filter_cons, if_pos hne, List.map_cons, ih hrest]

theorem segment_data (k x : String) :
    (QueryEscape k ++ "=" ++ QueryEscape x).data =
      (QueryEscape k).data ++ '=' :: (QueryEscape x).data := by
  simp [String.data_append]

theorem segments_wellformed (v : Values) :
    ∀ seg ∈ v.segments, seg.data ≠ [] ∧ ∀ c ∈ seg.data, c ≠ '&' := by
  intro seg hseg
  simp only [Values.segments, List.mem_flatMap, List.mem_map] at hseg
  obtain ⟨k, _, x, _, rfl⟩ := hseg
  rw [segment_data]
  refine ⟨by simp, ?_⟩
  intro c hc
  rw [List.mem_append, List.mem_cons] at hc
  rcases hc with hc | rfl | hc
  · exact (queryEscape_ne k c hc).1
  · decide
  · exact (queryEscape_ne x c hc).1

/-- Cutting an encoded `url.Values` at `&` gives back the segments it was
written from: the escaped values hold no `&`. -/
theorem querySegments_encode (v : Values) : querySegments v.Encode = v.segments :=
  querySegments_join v.segments (segments_wellformed v)

theorem escape_keys :
    QueryEscape "end_time" = "end_time" ∧ QueryEscape "filter_entity_id" = "filter_entity_id" ∧
    QueryEscape "minimal_response" = "minimal_response" ∧
    QueryEscape "no_attributes" = "no_attributes" ∧
    QueryEscape "significant_changes_only" = "significant_changes_only" ∧
    QueryEscape "" = "" := by decide

/-- The query of `GetHistory` is written from the expected segments. -/
theorem historyQuery_segments (entityIds : Option (List String)) (endTime : Time)
    (minimalResponse noAttributes significantChangesOnly : Bool) :
    (historyQuery entityIds endTime minimalResponse noAttributes significantChangesOnly).segments
      = historySegments entityIds endTime minimalResponse noAttributes
          significantChangesOnly := by
  rcases entityIds with _ | _ | ⟨id, ids⟩ <;> cases hz : endTime.IsZero <;>
    cases minimalResponse <;> cases noAttributes <;> cases significantChangesOnly <;>
  simp +decide [historyQuery, historySegments, hz, Values.Set, Values.empty, Values.segments,
    Values.get, idsOf, sortKeys, insertKey, strLt, escape_keys]

/-- Cutting the query string of `GetHistory` gives the expected segments. -/
theorem historyQuery_querySegments (entityIds : Option (List String)) (endTime : Time)
    (minimalResponse noAttributes significantChangesOnly : Bool) :
    querySegments
        (historyQuery entityIds endTime minimalResponse noAttributes
          significantChangesOnly).Encode
      = historySegments entityIds endTime minimalResponse noAttributes
          significantChangesOnly := by
  rw [querySegments_encode, historyQuery_segments]

theorem segmentKey_literals (x : String) :
    segmentKey ("end_time=" ++ x) = "end_time" ∧
    segmentKey ("filter_entity_id=" ++ x) = "filter_entity_id" ∧
    segmentKey "minimal_response=" = "minimal_response" ∧
    segmentKey "no_attributes=" = "no_attributes" ∧
    segmentKey "significant_changes_only=" = "significant_changes_only" := by
  refine ⟨?_, ?_, by decide, by decide, by decide⟩ <;>
    simp +decide [segmentKey, String.data_append, List.takeWhile]

/-- The effects of `GetHistory` with a start time that is set: the URL is
printed and a request for it is built; the request reaches the transport when
the URL is accepted. -/
theorem getHistory_events (parse : String → Option URL) (h : HomeAssistant) (startTime : Time)
    (entityIds : Option (List String)) (endTime : Time)
    (minimalResponse noAttributes significantChangesOnly : Bool)
    (hs : startTime.IsZero = false) :
    (h.GetHistory parse startTime entityIds endTime minimalResponse noAttributes
        significantChangesOnly).2 =
      [.print ("Hass url: " ++ historyURL h startTime entityIds endTime minimalResponse
          noAttributes significantChangesOnly ++ "\n"),
       .newRequest "GET" (historyURL h startTime entityIds endTime minimalResponse
          noAttributes significantChangesOnly) none] ++
      match urlParse parse (historyURL h startTime entityIds endTime minimalResponse
          noAttributes significantChangesOnly) with
      | .ok u => [.roundTrip (h.request "GET" u none)]
      | .error _ => [] := by
  unfold HomeAssistant.GetHistory
  simp only [hs, Bool.false_eq_true, if_false]
  cases hu : urlParse parse (historyURL h startTime entityIds endTime minimalResponse
      noAttributes significantChangesOnly) with
  | error err =>
    simp only [newRequest_error parse _ _ _ err hu]
    rfl
  | ok u =>
    simp only [newRequest_ok parse _ _ _ u hu, setHeader_std]
    cases h.client ⟨"GET", { u with Host := removeEmptyPort u.Host }, stdHeader h, none,
        removeEmptyPort u.Host⟩ with
    | error err => rfl
    | ok resp =>
      simp only []
      cases decodeHistory resp.Body <;> rfl

/-- When `http.NewRequest` refuses the URL, `GetHistory` returns its error. -/
theorem getHistory_refused (parse : String → Option URL) (h : HomeAssistant) (startTime : Time)
    (entityIds : Option (List String)) (endTime : Time)
    (minimalResponse noAttributes significantChangesOnly : Bool) (err : Error)
    (hs : startTime.IsZero = false)
    (hu : urlParse parse (historyURL h startTime entityIds endTime minimalResponse
      noAttributes significantChangesOnly) = .error err) :
    (h.GetHistory parse startTime entityIds endTime minimalResponse noAttributes
        significantChangesOnly).1 = .error err := by
  unfold HomeAssistant.GetHistory
  simp only [hs, Bool.false_eq_true, if_false, newRequest_error parse _ _ _ err hu]

/-- The outcome of `GetHistory` once the transport has answered. -/
theorem getHistory_result (parse : String → Option URL) (h : HomeAssistant) (startTime : Time)
    (entityIds : Option (List String)) (endTime : Time)
    (minimalResponse noAttributes significantChangesOnly : Bool) (u : URL) (resp : Response)
    (hs : startTime.IsZero = false)
    (hu : urlParse parse (historyURL h startTime entityIds endTime minimalResponse
      noAttributes significantChangesOnly) = .ok u)
    (hresp : h.client (h.request "GET" u none) = .ok resp) :
    (h.GetHistory parse startTime entityIds endTime minimalResponse noAttributes
      significantChangesOnly).1 = decodeHistory resp.Body := by
  unfold HomeAssistant.GetHistory
  unfold HomeAssistant.request at hresp
  simp only [hs, Bool.false_eq_true, if_false, newRequest_ok parse _ _ _ u hu, setHeader_std,
    hresp]
  cases decodeHistory resp.Body <;> rfl

/-- With a start time that is set, `GetHistory` builds one request, a GET for
`fullUrl`, and whatever reaches the transport is a GET whose URL is what
`http.NewRequest` made of `fullUrl`. -/
theorem getHistory_requests (parse : String → Option URL) (h : HomeAssistant) (startTime : Time)
    (entityIds : Option (List String)) (endTime : Time)
    (minimalResponse noAttributes significantChangesOnly : Bool)
    (hs : startTime.IsZero = false) :
    built (h.GetHistory parse startTime entityIds endTime minimalResponse noAttributes
        significantChangesOnly).2 =
      [("GET", historyURL h startTime entityIds endTime minimalResponse noAttributes
        significantChangesOnly)] ∧
    ∀ req ∈ roundTrips (h.GetHistory parse startTime entityIds endTime minimalResponse
        noAttributes significantChangesOnly).2,
      req.Method = "GET" ∧
      ∃ u, urlParse parse (historyURL h startTime entityIds endTime minimalResponse
          noAttributes significantChangesOnly) = .ok u ∧
        req.URL = { u with Host := removeEmptyPort u.Host } := by
  rw [getHistory_events parse h startTime entityIds endTime minimalResponse
    noAttributes significantChangesOnly hs]
  cases hu : urlParse parse (historyURL h startTime entityIds endTime minimalResponse
      noAttributes significantChangesOnly) with
  | error err =>
    refine ⟨rfl, ?_⟩
    intro req hreq
    simp [roundTrips] at hreq
  | ok u =>
    refine ⟨rfl, ?_⟩
    intro req hreq
    simp [roundTrips] at hreq
    subst hreq
    exact ⟨rfl, u, rfl, rfl⟩

/-- C2. For every `GetHistory` call with a start time that is set, the URL that
is requested is `baseURL + "/api/history/period/" + dateFormat(startTime) + "?"`
followed by the encoded query `q`, and in `q` each parameter is present exactly
when its condition holds: `filter_entity_id` iff the entity list is not empty,
`end_time` iff the end time is set, each of `minimal_response`, `no_attributes`,
`significant_changes_only` iff its flag is true. A segment with the key of a
flag is the key followed by `=` and nothing else, so `key=false` never
occurs. A request that reaches the transport is a GET whose URL is that text as
`http.NewRequest` read it. -/
theorem getHistory_query_params (parse : String → Option URL) (h : HomeAssistant)
    (startTime : Time)
    (entityIds : Option (List String)) (endTime : Time)
    (minimalResponse noAttributes significantChangesOnly : Bool) (q : String)
    (hs : startTime.IsZero = false)
    (hq : q = (historyQuery entityIds endTime minimalResponse noAttributes
      significantChangesOnly).Encode) :
    built (h.GetHistory parse startTime entityIds endTime minimalResponse noAttributes
        significantChangesOnly).2 =
      [("GET", h.baseURL ++ "/api/history/period/" ++ dateFormat startTime ++ "?" ++ q)] ∧
    (∀ req ∈ roundTrips (h.GetHistory parse startTime entityIds endTime minimalResponse
        noAttributes significantChangesOnly).2,
      req.Method = "GET" ∧
      ∃ u, urlParse parse
          (h.baseURL ++ "/api/history/period/" ++ dateFormat startTime ++ "?" ++ q) = .ok u ∧
        req.URL = { u with Host := removeEmptyPort u.Host }) ∧
    (hasParam q "filter_entity_id" = true ↔ idsOf entityIds ≠ []) ∧
    (hasParam q "end_time" = true ↔ endTime.IsZero = false) ∧
    (hasParam q "minimal_response" = true ↔ minimalResponse = true) ∧
    (hasParam q "no_attributes" = true ↔ noAttributes = true) ∧
    (hasParam q "significant_changes_only" = true ↔ significantChangesOnly = true) ∧
    (∀ seg ∈ querySegments q,
      (segmentKey seg = "minimal_response" → seg = "minimal_response=") ∧
      (segmentKey seg = "no_attributes" → seg = "no_attributes=") ∧
      (segmentKey seg = "significant_changes_only" → seg = "significant_changes_only=")) := by
  have hreqs := getHistory_requests parse h startTime entityIds endTime minimalResponse
    noAttributes significantChangesOnly hs
  have hurl : historyURL h startTime entityIds endTime minimalResponse noAttributes
      significantChangesOnly =
      h.baseURL ++ "/api/history/period/" ++ dateFormat startTime ++ "?" ++ q := by
    rw [hq]; rfl
  have hsegs : querySegments q = historySegments entityIds endTime minimalResponse
      noAttributes significantChangesOnly := by
    rw [hq]; exact historyQuery_querySegments _ _ _ _ _
  rw [hurl] at hreqs
  refine ⟨hreqs.1, hreqs.2, ?_⟩
  · unfold hasParam
    rw [hsegs]
    have hk1 := fun x => (segmentKey_literals x).1
    have hk2 := fun x => (segmentKey_literals x).2.1
    have hk3 := (segmentKey_literals "").2.2
    unfold historySegments
    cases hids : (idsOf entityIds).isEmpty <;> cases hz : endTime.IsZero <;>
      cases minimalResponse <;> cases noAttributes <;> cases significantChangesOnly <;>
      simp +decide [hk1, hk2, hk3, List.isEmpty_iff] at hids ⊢ <;> simp [hids]

/-- C2 at entity IDs `a`, `b` and `minimalResponse`. -/
theorem getHistory_query_params_witness :
    (Time.mk 63839664000 0 UTC).IsZero = false ∧
    "filter_entity_id=a%2Cb&minimal_response=" =
      (historyQuery (some ["a", "b"]) Time.zero true false false).Encode ∧
    built (HomeAssistant.GetHistory exampleParse
        ⟨"http://hass.local:8123", "secret", fun _ => .ok ⟨200, "[]"⟩⟩
        (Time.mk 63839664000 0 UTC) (some ["a", "b"]) Time.zero true false false).2 =
      [("GET", "http://hass.local:8123/api/history/period/2024-01-01T00:00:00Z" ++
        "?filter_entity_id=a%2Cb&minimal_response=")] :=
  ⟨by decide, by decide,
    (getHistory_query_params exampleParse
      ⟨"http://hass.local:8123", "secret", fun _ => .ok ⟨200, "[]"⟩⟩
      (Time.mk 63839664000 0 UTC) (some ["a", "b"]) Time.zero true false false
      "filter_entity_id=a%2Cb&minimal_response=" (by decide) (by decide)).1⟩

/-- C3. For every base URL and every start time that is set, `GetHistory` with
only the start time set (entity list nil or empty, end time zero, the three
flags false) requests exactly the URL
`baseURL + "/api/history/period/" + dateFormat(startTime) + "?"`: that is the
text it hands to `http.NewRequest`; the encoded query is empty, it has no
parameter. When `http.NewRequest` accepts the text, the one request issued is
the GET it built from the text; when it refuses the text, its error is returned
and nothing is issued. -/
theorem getHistory_only_startTime (parse : String → Option URL) (h : HomeAssistant)
    (startTime : Time) (entityIds : Option (List String)) (endTime : Time)
    (hs : startTime.IsZero = false) (hids : idsOf entityIds = [])
    (he : endTime.IsZero = true) :
    built (h.GetHistory parse startTime entityIds endTime false false false).2 =
      [("GET", h.baseURL ++ "/api/history/period/" ++ dateFormat startTime ++ "?")] ∧
    (historyQuery entityIds endTime false false false).Encode = "" ∧
    querySegments (historyQuery entityIds endTime false false false).Encode = [] ∧
    (∀ u, urlParse parse
        (h.baseURL ++ "/api/history/period/" ++ dateFormat startTime ++ "?") = .ok u →
      roundTrips (h.GetHistory parse startTime entityIds endTime false false false).2 =
        [⟨"GET", { u with Host := removeEmptyPort u.Host },
          [("Authorization", "Bearer " ++ h.token), ("Content-Type", "application/json")],
          none, removeEmptyPort u.Host⟩]) ∧
    (∀ err, urlParse parse
        (h.baseURL ++ "/api/history/period/" ++ dateFormat startTime ++ "?") = .error err →
      (h.GetHistory parse startTime entityIds endTime false false false).1 = .error err ∧
      roundTrips (h.GetHistory parse startTime entityIds endTime false false false).2 = []) := by
  have hq : (historyQuery entityIds endTime false false false).Encode = "" := by
    unfold Values.Encode
    rw [historyQuery_segments]
    simp [historySegments, hids, he, Join]
  have hurl : historyURL h startTime entityIds endTime false false false =
      h.baseURL ++ "/api/history/period/" ++ dateFormat startTime ++ "?" := by
    unfold historyURL
    simp only [hq, String.append_empty]
  have hev := getHistory_events parse h startTime entityIds endTime false false false hs
  rw [hurl] at hev
  refine ⟨?_, hq, ?_, ?_, ?_⟩
  · rw [hev]
    cases urlParse parse (h.baseURL ++ "/api/history/period/" ++ dateFormat startTime ++ "?") <;>
      rfl
  · rw [hq]
    decide
  · intro u hu
    rw [hev, hu]
    rfl
  · intro err hu
    refine ⟨?_, by rw [hev, hu]; rfl⟩
    exact getHistory_refused parse h startTime entityIds endTime false false false err hs
      (by rw [hurl]; exact hu)

/-- C3 at the start time 2024-01-01T00:00:00Z, an empty, non-nil entity list,
and a base URL that ends in a newline: `http.NewRequest` will refuse the URL,
and the URL that was requested of it has the form of the claim. -/
theorem getHistory_only_startTime_witness :
    (Time.mk 63839664000 0 UTC).IsZero = false ∧ idsOf (some []) = [] ∧
    Time.zero.IsZero = true ∧
    built (HomeAssistant.GetHistory exampleParse
        ⟨"http://hass.local:8123\n", "secret", fun _ => .ok ⟨200, "[]"⟩⟩
        (Time.mk 63839664000 0 UTC) (some []) Time.zero false false false).2 =
      [("GET", "http://hass.local:8123\n/api/history/period/2024-01-01T00:00:00Z?")] :=
  ⟨by decide, by decide, by decide,
    (getHistory_only_startTime exampleParse
      ⟨"http://hass.local:8123\n", "secret", fun _ => .ok ⟨200, "[]"⟩⟩
      (Time.mk 63839664000 0 UTC) (some []) Time.zero (by decide) (by decide)
      (by decide)).1⟩

theorem mem_join_infix (segs : List String) (sep seg : String) (h : seg ∈ segs) :
    seg.data <:+: (Join segs sep).data := by
  induction segs with
  | nil => cases h
  | cons a rest ih =>
    cases rest with
    | nil =>
      rw [List.mem_singleton] at h
      subst h
      exact List.infix_refl _
    | cons b rest =>
      rw [join_cons_cons]
      rcases List.mem_cons.mp h with rfl | h
      · exact ⟨[], sep.data ++ (Join (b :: rest) sep).data, by simp⟩
      · obtain ⟨s, t, hst⟩ := ih h
        exact ⟨a.data ++ sep.data ++ s, t, by simp [← hst]⟩

/-- C4. For every entity list that is not empty and every start time that is
set, the URL requested by `GetHistory` contains `filter_entity_id=` followed by
the query-escaped comma-join of the IDs in their order, as one whole segment of
the query; and when `minimalResponse` is true it contains the segment
`minimal_response=`, with no value. A request that reaches the transport has
that URL as `http.NewRequest` read it. -/
theorem getHistory_entity_filter (parse : String → Option URL) (h : HomeAssistant)
    (startTime : Time) (entityIds : Option (List String)) (endTime : Time)
    (minimalResponse noAttributes significantChangesOnly : Bool) (q url : String)
    (hs : startTime.IsZero = false) (hids : idsOf entityIds ≠ [])
    (hq : q = (historyQuery entityIds endTime minimalResponse noAttributes
      significantChangesOnly).Encode)
    (hurl : url = h.baseURL ++ "/api/history/period/" ++ dateFormat startTime ++ "?" ++ q) :
    built (h.GetHistory parse startTime entityIds endTime minimalResponse noAttributes
        significantChangesOnly).2 = [("GET", url)] ∧
    (∀ req ∈ roundTrips (h.GetHistory parse startTime entityIds endTime minimalResponse
        noAttributes significantChangesOnly).2,
      ∃ u, urlParse parse url = .ok u ∧ req.URL = { u with Host := removeEmptyPort u.Host }) ∧
    "filter_entity_id=" ++ QueryEscape (Join (idsOf entityIds) ",") ∈ querySegments q ∧
    ("filter_entity_id=" ++ QueryEscape (Join (idsOf entityIds) ",")).data <:+: url.data ∧
    (minimalResponse = true →
      "minimal_response=" ∈ querySegments q ∧ "minimal_response=".data <:+: url.data) := by
  have hsegs : querySegments q = historySegments entityIds endTime minimalResponse
      noAttributes significantChangesOnly := by
    rw [hq]; exact historyQuery_querySegments _ _ _ _ _
  have hjoin : q = Join (historySegments entityIds endTime minimalResponse
      noAttributes significantChangesOnly) "&" := by
    rw [hq, Values.Encode, historyQuery_segments]
  have hinfix : ∀ seg : String, seg ∈ querySegments q → seg.data <:+: url.data := by
    intro seg hseg
    rw [hsegs] at hseg
    obtain ⟨s, t, hst⟩ := mem_join_infix _ "&" seg hseg
    rw [← hjoin] at hst
    refine ⟨(h.baseURL ++ "/api/history/period/" ++ dateFormat startTime ++ "?").data ++ s, t, ?_⟩
    rw [hurl]
    simp only [String.data_append, ← hst, List.append_assoc]
  have hfilter : "filter_entity_id=" ++ QueryEscape (Join (idsOf entityIds) ",") ∈
      querySegments q := by
    rw [hsegs]
    simp [historySegments, hids]
  have hreqs := getHistory_requests parse h startTime entityIds endTime minimalResponse
    noAttributes significantChangesOnly hs
  have hfull : historyURL h startTime entityIds endTime minimalResponse noAttributes
      significantChangesOnly = url := by
    rw [hurl, hq]; rfl
  rw [hfull] at hreqs
  refine ⟨hreqs.1, fun req hreq => (hreqs.2 req hreq).2, hfilter, hinfix _ hfilter, ?_⟩
  · intro hm
    have hmem : "minimal_response=" ∈ querySegments q := by
      rw [hsegs]
      simp [historySegments, hm]
    exact ⟨hmem, hinfix _ hmem⟩

/-- C4 at entity IDs `a`, `b` and `minimalResponse`: the segments
`filter_entity_id=a%2Cb` and `minimal_response=`. -/
theorem getHistory_entity_filter_witness :
    (Time.mk 63839664000 0 UTC).IsZero = false ∧ idsOf (some ["a", "b"]) ≠ [] ∧
    QueryEscape (Join ["a", "b"] ",") = "a%2Cb" ∧
    built (HomeAssistant.GetHistory exampleParse
        ⟨"http://hass.local:8123", "secret", fun _ => .ok ⟨200, "[]"⟩⟩
        (Time.mk 63839664000 0 UTC) (some ["a", "b"]) Time.zero true false false).2 =
      [("GET", "http://hass.local:8123/api/history/period/2024-01-01T00:00:00Z" ++
        "?filter_entity_id=a%2Cb&minimal_response=")] ∧
    "filter_entity_id=a%2Cb" ∈ querySegments "filter_entity_id=a%2Cb&minimal_response=" ∧
    "minimal_response=" ∈ querySegments "filter_entity_id=a%2Cb&minimal_response=" :=
  have key := getHistory_entity_filter exampleParse
    ⟨"http://hass.local:8123", "secret", fun _ => .ok ⟨200, "[]"⟩⟩
    (Time.mk 63839664000 0 UTC) (some ["a", "b"]) Time.zero true false false
    "filter_entity_id=a%2Cb&minimal_response="
    ("http://hass.local:8123/api/history/period/2024-01-01T00:00:00Z" ++
      "?filter_entity_id=a%2Cb&minimal_response=")
    (by decide) (by decide) (by decide) (by decide)
  ⟨by decide, by decide, by decide, key.1, key.2.2.1, (key.2.2.2.2 rfl).1⟩

/-! ### The time format -/

theorem isDigit_digitChar (d : Nat) : isDigit (digitChar d) = true := by
  unfold digitChar
  have h : d % 10 < 10 := Nat.mod_lt _ (by decide)
  generalize d % 10 = k at h
  interval_cases k <;> decide

theorem appendInt_two (n : Nat) (h : n < 100) :
    appendInt (n : Int) 2 = [digitChar (n / 10), digitChar n] := by
  unfold appendInt
  have h1 : ¬ ((n : Int) < 0) := by omega
  simp [h, h1]

theorem appendInt_four (x : Int) (h0 : 0 ≤ x) (h1 : x ≤ 9999) :
    appendInt x 4 = [digitChar (x.natAbs / 1000), digitChar (x.natAbs / 100),
      digitChar (x.natAbs / 10), digitChar x.natAbs] := by
  unfold appendInt
  have h2 : ¬ (x < 0) := by omega
  have h3 : x.natAbs < 10000 := by omega
  simp [h2, h3]

theorem absClock_lt (n : Nat) (h : n < 86400) :
    (absClock n).1 < 100 ∧ (absClock n).2.1 < 100 ∧ (absClock n).2.2 < 100 := by
  unfold absClock
  simp only
  omega

/-- The cycles that `cutCycles` cuts off a day count below 146097: at most
three 100-year cycles, 24 four-year cycles and three years, and a rest that is
a day of the year; the rest is the 366th day only in the last year of a
four-year cycle that is not the last of a 100-year cycle, or is the last of
all. -/
theorem cutCycles_spec (d0 : Nat) (h : d0 < 146097) :
    (cutCycles d0).1 ≤ 3 ∧ (cutCycles d0).2.1 ≤ 24 ∧ (cutCycles d0).2.2.1 ≤ 3 ∧
    d0 = 36524 * (cutCycles d0).1 + 1461 * (cutCycles d0).2.1 + 365 * (cutCycles d0).2.2.1 +
      (cutCycles d0).2.2.2 ∧
    ((cutCycles d0).2.2.2 < 365 ∨ ((cutCycles d0).2.2.2 = 365 ∧ (cutCycles d0).2.2.1 = 3 ∧
      ((cutCycles d0).2.1 < 24 ∨ (cutCycles d0).1 = 3))) := by
  unfold cutCycles
  simp only
  generalize hn100 : d0 / 36524 - d0 / 36524 / 4 = n100
  have b100 : n100 ≤ 3 ∧ 36524 * n100 ≤ d0 ∧
      (d0 - 36524 * n100 < 36524 ∨ (n100 = 3 ∧ d0 - 36524 * n100 = 36524)) := by omega
  generalize hd1 : d0 - 36524 * n100 = d1 at b100 ⊢
  have hd1' : d0 = 36524 * n100 + d1 := by omega
  generalize hn4 : d1 / 1461 = n4
  have b4 : n4 ≤ 24 ∧ 1461 * n4 ≤ d1 ∧ d1 - 1461 * n4 < 1461 ∧
      (n4 < 24 ∨ d1 - 1461 * n4 < 1460 ∨ n100 = 3) := by omega
  generalize hd2 : d1 - 1461 * n4 = d2 at b4 ⊢
  have hd2' : d1 = 1461 * n4 + d2 := by omega
  generalize hn1 : d2 / 365 - d2 / 365 / 4 = n1
  have b1 : n1 ≤ 3 ∧ 365 * n1 ≤ d2 ∧
      (d2 - 365 * n1 < 365 ∨ (n1 = 3 ∧ d2 - 365 * n1 = 365 ∧ d2 = 1460)) := by omega
  omega

theorem absYear_spec (days : Int) :
    daysSinceEpoch (absYear days).1 + (absYear days).2 = days ∧
    (absYear days).2 < (if isLeap (absYear days).1 then 366 else 365) := by
  have h0 : 0 ≤ days % 146097 := Int.emod_nonneg _ (by decide)
  have h1 : days % 146097 < 146097 := Int.emod_lt_of_pos _ (by decide)
  have hc := cutCycles_spec (days % 146097).toNat (by omega)
  unfold absYear
  simp only
  generalize cutCycles (days % 146097).toNat = c at hc ⊢
  obtain ⟨n100, n4, n1, d3⟩ := c
  simp only at hc ⊢
  constructor
  · unfold daysSinceEpoch
    simp only
    omega
  · unfold isLeap
    split <;> rename_i hl <;> simp at hl <;> omega

set_option maxRecDepth 1000000 in
/-- The second half of `absDate` inverts the table of `time.Date`: for a day of
the year it gives a month and a day of that month that `Date` maps back to
it. -/
theorem monthDay_spec (leap : Bool) : ∀ yday, yday < (if leap then 366 else 365) →
    1 ≤ (monthDay leap yday).1 ∧ (monthDay leap yday).1 ≤ 12 ∧
    1 ≤ (monthDay leap yday).2 ∧
    (monthDay leap yday).2 ≤ (if (monthDay leap yday).1 = 2 ∧ leap = true then 29
      else daysBefore (monthDay leap yday).1 - daysBefore ((monthDay leap yday).1 - 1)) ∧
    daysBefore ((monthDay leap yday).1 - 1) +
      (if leap && decide ((monthDay leap yday).1 ≥ 3) then 1 else 0) +
      ((monthDay leap yday).2 - 1) = yday := by
  cases leap <;> decide

set_option maxRecDepth 1000000 in
/-- The table of `time.Date` inverts the second half of `absDate`: a month and
a day of that month give a day of the year from which `monthDay` gives them
back. -/
theorem monthDay_inverse (leap : Bool) : ∀ month, month < 13 → ∀ day, day < 32 →
    (decide (1 ≤ month) && decide (1 ≤ day) &&
      decide (day ≤ (if month = 2 ∧ leap = true then 29
        else daysBefore month - daysBefore (month - 1)))) = true →
    daysBefore (month - 1) + (if leap && decide (month ≥ 3) then 1 else 0) + (day - 1) <
      (if leap then 366 else 365) ∧
    monthDay leap (daysBefore (month - 1) + (if leap && decide (month ≥ 3) then 1 else 0) +
      (day - 1)) = (month, day) := by
  cases leap <;> decide

theorem daysIn_le (month : Nat) (year : Int) (h1 : 1 ≤ month) (h2 : month ≤ 12) :
    daysIn month year ≤ 31 := by
  unfold daysIn
  interval_cases month <;> split <;> simp_all [daysBefore]

theorem daysSinceEpoch_eq (year : Int) :
    daysSinceEpoch year =
      365 * (year - 1) + (year - 1) / 4 - (year - 1) / 100 + (year - 1) / 400 := by
  unfold daysSinceEpoch
  simp only
  omega

theorem isLeap_iff (year : Int) :
    isLeap year = true ↔ year % 4 = 0 ∧ (year % 100 ≠ 0 ∨ year % 400 = 0) := by
  unfold isLeap
  simp

/-- A year is as long as `isLeap` says. -/
theorem daysSinceEpoch_succ (year : Int) :
    daysSinceEpoch (year + 1) = daysSinceEpoch year + (if isLeap year then 366 else 365) := by
  rw [daysSinceEpoch_eq, daysSinceEpoch_eq]
  have hl := isLeap_iff year
  by_cases c : isLeap year = true
  · simp only [c, if_true, true_iff] at hl ⊢
    omega
  · simp only [c, if_false, false_iff, Bool.false_eq_true] at hl ⊢
    omega

theorem daysSinceEpoch_mono (a b : Int) (h : a ≤ b) : daysSinceEpoch a ≤ daysSinceEpoch b := by
  refine @Int.le_induction (fun n => daysSinceEpoch a ≤ daysSinceEpoch n) a (le_refl _) ?_ b h
  intro n _ ih
  simp only at ih ⊢
  rw [daysSinceEpoch_succ]
  split <;> omega

/-- A day count has one year and day of the year only. -/
theorem absYear_unique (year : Int) (yday : Nat)
    (h : yday < (if isLeap year then 366 else 365)) :
    absYear (daysSinceEpoch year + yday) = (year, yday) := by
  have hs := absYear_spec (daysSinceEpoch year + yday)
  generalize absYear (daysSinceEpoch year + yday) = p at hs
  obtain ⟨y2, d2⟩ := p
  simp only at hs
  obtain ⟨h1, h2⟩ := hs
  have s1 := daysSinceEpoch_succ year
  have s2 := daysSinceEpoch_succ y2
  have hy : y2 = year := by
    rcases lt_trichotomy y2 year with c | c | c
    · have := daysSinceEpoch_mono (y2 + 1) year (by omega)
      split at s2 <;> simp_all <;> omega
    · exact c
    · have := daysSinceEpoch_mono (year + 1) y2 (by omega)
      split at s1 <;> simp_all <;> omega
  subst hy
  have hd : d2 = yday := by omega
  subst hd
  rfl

/-- `absDate` and `absClock` invert `time.Date` on fields within their ranges:
the day is a day of the month. -/
theorem absDate_date (year : Int) (month day hour min sec : Nat)
    (hm1 : 1 ≤ month) (hm2 : month ≤ 12) (hd1 : 1 ≤ day) (hd2 : day ≤ daysIn month year)
    (hh : hour < 24) (hmin : min < 60) (hsec : sec < 60) :
    absDate (Date year month day hour min sec / 86400) = (year, month, day) ∧
    absClock (Date year month day hour min sec % 86400).toNat = (hour, min, sec) := by
  have hd31 : day ≤ 31 := le_trans hd2 (daysIn_le month year hm1 hm2)
  have hinv := monthDay_inverse (isLeap year) month (by omega) day (by omega)
    (by simp only [Bool.and_eq_true, decide_eq_true_eq]; exact ⟨⟨hm1, hd1⟩, hd2⟩)
  have hy := absYear_unique year _ hinv.1
  unfold Date
  simp only
  generalize daysBefore (month - 1) + (if (isLeap year && decide (month ≥ 3)) = true then 1 else 0)
    + (day - 1) = doy at hinv hy
  have hdiv : ((daysSinceEpoch year + doy) * 86400 + ((hour * 3600 + min * 60 + sec : Nat) : Int))
      / 86400 = daysSinceEpoch year + doy := by omega
  have hmod : (((daysSinceEpoch year + doy) * 86400 +
      ((hour * 3600 + min * 60 + sec : Nat) : Int)) % 86400).toNat =
      hour * 3600 + min * 60 + sec := by omega
  rw [hdiv, hmod]
  constructor
  · unfold absDate
    simp only [hy, hinv.2]
  · unfold absClock
    simp only
    refine Prod.ext ?_ (Prod.ext ?_ ?_) <;> simp only <;> omega

/-- The fields of `time.Date`, within their ranges, are determined by the
instant. -/
theorem date_injective (year : Int) (month day hour min sec : Nat)
    (year2 : Int) (month2 day2 hour2 min2 sec2 : Nat)
    (hm1 : 1 ≤ month) (hm2 : month ≤ 12) (hd1 : 1 ≤ day) (hd2 : day ≤ daysIn month year)
    (hh : hour < 24) (hmin : min < 60) (hsec : sec < 60)
    (km1 : 1 ≤ month2) (km2 : month2 ≤ 12) (kd1 : 1 ≤ day2) (kd2 : day2 ≤ daysIn month2 year2)
    (kh : hour2 < 24) (kmin : min2 < 60) (ksec : sec2 < 60)
    (h : Date year2 month2 day2 hour2 min2 sec2 = Date year month day hour min sec) :
    year2 = year ∧ month2 = month ∧ day2 = day ∧ hour2 = hour ∧ min2 = min ∧ sec2 = sec := by
  have a := absDate_date year month day hour min sec hm1 hm2 hd1 hd2 hh hmin hsec
  have b := absDate_date year2 month2 day2 hour2 min2 sec2 km1 km2 kd1 kd2 kh kmin ksec
  rw [h] at b
  have e1 := a.1.symm.trans b.1
  have e2 := a.2.symm.trans b.2
  simp only [Prod.mk.injEq] at e1 e2
  exact ⟨e1.1.symm, e1.2.1.symm, e1.2.2.symm, e2.1.symm, e2.2.1.symm, e2.2.2.symm⟩

/-- The date and clock that `Format` writes for an instant are the fields that
`time.Date` maps back to that instant. -/
theorem date_absDate_absClock (sec : Int) :
    Date (absDate (sec / 86400)).1 (absDate (sec / 86400)).2.1 (absDate (sec / 86400)).2.2
      (absClock (sec % 86400).toNat).1 (absClock (sec % 86400).toNat).2.1
      (absClock (sec % 86400).toNat).2.2 = sec := by
  have hy := absYear_spec (sec / 86400)
  have hmd := monthDay_spec (isLeap (absYear (sec / 86400)).1) (absYear (sec / 86400)).2 hy.2
  have h0 : 0 ≤ sec % 86400 := Int.emod_nonneg _ (by decide)
  have h1 : sec % 86400 < 86400 := Int.emod_lt_of_pos _ (by decide)
  have hc := absClock_lt (sec % 86400).toNat (by omega)
  have hclock : (((absClock (sec % 86400).toNat).1 * 3600 +
      (absClock (sec % 86400).toNat).2.1 * 60 + (absClock (sec % 86400).toNat).2.2 : Nat) : Int)
      = sec % 86400 := by
    unfold absClock
    simp only
    omega
  unfold Date absDate
  simp only
  rw [hclock, hmd.2.2.2.2]
  omega

/-- The days of the years up to 9999. -/
theorem absYear_bound (days : Int) (hy : (absYear days).1 ≤ 9999) : days < 3652059 := by
  have hs := absYear_spec days
  have hsucc := daysSinceEpoch_succ (absYear days).1
  have hmono := daysSinceEpoch_mono ((absYear days).1 + 1) 10000 (by omega)
  have h10000 : daysSinceEpoch 10000 = 3652059 := by decide
  split at hsucc <;> simp_all <;> omega

/-- For a time whose seconds fit 64 bits and whose year in UTC is at most 9999,
the absolute seconds have not wrapped: the days and the second of the day that
`Format` works with are those of the instant. -/
theorem locabs_utc (t : Time)
    (ht : -9223372036854775808 ≤ t.sec ∧ t.sec < 9223372036854775808)
    (hy : (t.UTC).Year ≤ 9999) :
    absDays (t.UTC).locabs.1 = t.sec / 86400 ∧
    (t.UTC).locabs.1 % 86400 = (t.sec % 86400).toNat := by
  have hb := absYear_bound (absDays (t.UTC).locabs.1) hy
  simp only [Time.locabs, Time.UTC, UTC, absDays, internalToAbsolute, add_zero] at hb ⊢
  by_cases hA : 0 ≤ t.sec + 9223371966606163200
  · have hmod : (t.sec + 9223371966606163200) % 18446744073709551616 =
        t.sec + 9223371966606163200 := Int.emod_eq_of_lt hA (by omega)
    rw [hmod]
    omega
  · have hmod : (t.sec + 9223371966606163200) % 18446744073709551616 =
        t.sec + 9223371966606163200 + 18446744073709551616 := by
      rw [← Int.add_emod_self]
      exact Int.emod_eq_of_lt (by omega) (by omega)
    rw [hmod] at hb
    omega

theorem dateFormat_fields (t : Time) :
    dateFormat t = String.mk (appendInt (t.UTC).Year 4 ++ [ '-' ] ++
      appendInt (absDate (absDays (t.UTC).locabs.1)).2.1 2 ++ [ '-' ] ++
      appendInt (absDate (absDays (t.UTC).locabs.1)).2.2 2 ++ [ 'T' ] ++
      appendInt (absClock ((t.UTC).locabs.1 % 86400)).1 2 ++ [ ':' ] ++
      appendInt (absClock ((t.UTC).locabs.1 % 86400)).2.1 2 ++ [ ':' ] ++
      appendInt (absClock ((t.UTC).locabs.1 % 86400)).2.2 2 ++ [ 'Z' ]) := by
  simp [dateFormat, Time.FormatRFC3339, Time.locabs, Time.UTC, UTC, Time.Year, zoneSuffix]

/-- The value that `GetHistory` sets for `end_time` is `dateFormat(endTime)`. -/
theorem historyQuery_end_time (entityIds : Option (List String)) (endTime : Time)
    (minimalResponse noAttributes significantChangesOnly : Bool)
    (hz : endTime.IsZero = false) :
    (historyQuery entityIds endTime minimalResponse noAttributes significantChangesOnly).get
      "end_time" = [dateFormat endTime] := by
  rcases entityIds with _ | _ | ⟨id, ids⟩ <;> cases minimalResponse <;> cases noAttributes <;>
    cases significantChangesOnly <;>
    simp +decide [historyQuery, hz, Values.Set, Values.get, Values.empty]

/-- C9, as stated, fails: the first second of year 10000, which is
`time.Date(10000, 1, 1, 0, 0, 0, 0, time.UTC)`, is written with a five-digit
year, and the last second of the year before year 0 with a minus sign; neither
has the form `YYYY-MM-DDTHH:MM:SSZ`. -/
theorem dateFormat_year_out_of_range :
    Date 10000 1 1 0 0 0 = 315537897600 ∧
    dateFormat ⟨315537897600, 0, UTC⟩ = "10000-01-01T00:00:00Z" ∧
    isRFC3339UTC (dateFormat ⟨315537897600, 0, UTC⟩).data = false ∧
    Date (-1) 12 31 23 59 59 = -31622401 ∧
    dateFormat ⟨-31622401, 0, UTC⟩ = "-0001-12-31T23:59:59Z" ∧
    isRFC3339UTC (dateFormat ⟨-31622401, 0, UTC⟩).data = false := by
  decide

/-- C9, amended. For every time `t` (its seconds a 64-bit integer, as in Go)
whose year in UTC is from 0 to 9999, in whatever location it is expressed and
whatever its nanoseconds, `dateFormat t` has the form `YYYY-MM-DDTHH:MM:SSZ`
(digits, the separators, the suffix `Z`; no numeric offset, no fraction); it
depends on the instant in seconds only; and it is written from the year,
month, day of that month, hour, minute and second that `time.Date` in UTC maps
to the instant of `t`, which are the only such fields. It is the text that
`GetHistory` puts into the path of the URL for the start time, and the value
it sets for `end_time` for the end time. -/
theorem dateFormat_utc_rfc3339 (t : Time)
    (ht : -9223372036854775808 ≤ t.sec ∧ t.sec < 9223372036854775808)
    (hy : 0 ≤ (t.UTC).Year ∧ (t.UTC).Year ≤ 9999) :
    isRFC3339UTC (dateFormat t).data = true ∧
    (∀ (nsec : Nat) (loc : Location), dateFormat ⟨t.sec, nsec, loc⟩ = dateFormat t) ∧
    (∃ month day hour min sec : Nat,
      1 ≤ month ∧ month ≤ 12 ∧ 1 ≤ day ∧ day ≤ daysIn month (t.UTC).Year ∧
      hour < 24 ∧ min < 60 ∧ sec < 60 ∧
      Date (t.UTC).Year month day hour min sec = t.sec ∧
      dateFormat t = String.mk (appendInt (t.UTC).Year 4 ++ [ '-' ] ++ appendInt month 2 ++
        [ '-' ] ++ appendInt day 2 ++ [ 'T' ] ++ appendInt hour 2 ++ [ ':' ] ++
        appendInt min 2 ++ [ ':' ] ++ appendInt sec 2 ++ [ 'Z' ]) ∧
      ∀ (year2 : Int) (month2 day2 hour2 min2 sec2 : Nat),
        1 ≤ month2 → month2 ≤ 12 → 1 ≤ day2 → day2 ≤ daysIn month2 year2 →
        hour2 < 24 → min2 < 60 → sec2 < 60 →
        Date year2 month2 day2 hour2 min2 sec2 = t.sec →
        year2 = (t.UTC).Year ∧ month2 = month ∧ day2 = day ∧ hour2 = hour ∧ min2 = min ∧
          sec2 = sec) ∧
    (∀ (h : HomeAssistant) (entityIds : Option (List String)) (endTime : Time)
        (minimalResponse noAttributes significantChangesOnly : Bool),
      historyURL h t entityIds endTime minimalResponse noAttributes significantChangesOnly =
        h.baseURL ++ "/api/history/period/" ++ dateFormat t ++ "?" ++
          (historyQuery entityIds endTime minimalResponse noAttributes
            significantChangesOnly).Encode) ∧
    (∀ (entityIds : Option (List String))
        (minimalResponse noAttributes significantChangesOnly : Bool),
      t.IsZero = false →
      (historyQuery entityIds t minimalResponse noAttributes significantChangesOnly).get
        "end_time" = [dateFormat t]) := by
  obtain ⟨hdays, hsod⟩ := locabs_utc t ht hy.2
  have hyear : (t.UTC).Year = (absDate (t.sec / 86400)).1 := by
    unfold Time.Year
    rw [hdays]
  have hyd := absYear_spec (t.sec / 86400)
  have hmd := monthDay_spec (isLeap (absYear (t.sec / 86400)).1) (absYear (t.sec / 86400)).2
    hyd.2
  have h0 : 0 ≤ t.sec % 86400 := Int.emod_nonneg _ (by decide)
  have h1 : t.sec % 86400 < 86400 := Int.emod_lt_of_pos _ (by decide)
  have hc := absClock_lt (t.sec % 86400).toNat (by omega)
  have hfields := dateFormat_fields t
  rw [hdays, hsod] at hfields
  have hdate := date_absDate_absClock t.sec
  have hday : (absDate (t.sec / 86400)).2.2 ≤
      daysIn (absDate (t.sec / 86400)).2.1 (absDate (t.sec / 86400)).1 := hmd.2.2.2.1
  have hh : (absClock (t.sec % 86400).toNat).1 < 24 := by
    unfold absClock
    simp only
    omega
  have hmin : (absClock (t.sec % 86400).toNat).2.1 < 60 := by
    unfold absClock
    simp only
    omega
  have hsec : (absClock (t.sec % 86400).toNat).2.2 < 60 := by
    unfold absClock
    simp only
    omega
  refine ⟨?_, ?_, ⟨_, _, _, _, _, hmd.1, hmd.2.1, hmd.2.2.1, ?_, hh, hmin, hsec, ?_, hfields, ?_⟩,
    ?_, ?_⟩
  · rw [hfields]
    simp only [absDate]
    have hy2 : 0 ≤ (t.UTC).Year ∧ (t.UTC).Year ≤ 9999 := hy
    have hmd31 := daysIn_le _ (absDate (t.sec / 86400)).1 hmd.1 hmd.2.1
    have hday31 : (absDate (t.sec / 86400)).2.2 ≤ 31 := le_trans hday hmd31
    simp only [absDate] at hday31
    rw [appendInt_four _ hy2.1 hy2.2, appendInt_two _ (by omega : _ < 100),
      appendInt_two _ (by omega : _ < 100), appendInt_two _ hc.1, appendInt_two _ hc.2.1,
      appendInt_two _ hc.2.2]
    simp [isRFC3339UTC, isDigit_digitChar]
  · intro nsec loc
    rfl
  · rw [hyear]
    exact hday
  · rw [hyear]
    exact hdate
  · intro year2 month2 day2 hour2 min2 sec2 k1 k2 k3 k4 k5 k6 k7 hk
    rw [hyear]
    exact date_injective _ _ _ _ _ _ year2 month2 day2 hour2 min2 sec2 hmd.1 hmd.2.1 hmd.2.2.1
      hday hh hmin hsec k1 k2 k3 k4 k5 k6 k7 (hk.trans hdate.symm)
  · intro h entityIds endTime minimalResponse noAttributes significantChangesOnly
    rfl
  · intro entityIds minimalResponse noAttributes significantChangesOnly hz
    exact historyQuery_end_time entityIds t minimalResponse noAttributes significantChangesOnly hz

/-- C9, amended, at 2024-01-01T02:02:03+01:00 with 5 nanoseconds. -/
theorem dateFormat_utc_rfc3339_witness :
    (-9223372036854775808 ≤ (63839667723 : Int) ∧ (63839667723 : Int) < 9223372036854775808) ∧
    (0 ≤ (Time.UTC ⟨63839667723, 5, ⟨fun _ => 3600⟩⟩).Year ∧
      (Time.UTC ⟨63839667723, 5, ⟨fun _ => 3600⟩⟩).Year ≤ 9999) ∧
    dateFormat ⟨63839667723, 5, ⟨fun _ => 3600⟩⟩ = "2024-01-01T01:02:03Z" ∧
    isRFC3339UTC (dateFormat ⟨63839667723, 5, ⟨fun _ => 3600⟩⟩).data = true :=
  ⟨by decide, by decide, by decide,
    (dateFormat_utc_rfc3339 ⟨63839667723, 5, ⟨fun _ => 3600⟩⟩ (by decide) (by decide)).1⟩

/-! ### The attributes of a history element -/

theorem find_mem {names : List String} {p : String → Bool} {n : String}
    (h : names.find? p = some n) : n ∈ names :=
  List.mem_of_find?_eq_some h

theorem matchField_mem {names : List String} {key n : String}
    (h : matchField names key = some n) : n ∈ names := by
  unfold matchField at h
  split at h
  · rename_i m hm
    cases h
    exact find_mem hm
  · exact find_mem h

theorem storeMembers_append {σ : Type} (names : List String)
    (store : σ → String → JSON → Except Error σ) (a b : List (String × JSON)) (x : σ) :
    storeMembers names store (a ++ b) x =
      match storeMembers names store a x with
      | .ok y => storeMembers names store b y
      | .error err => .error err := by
  induction a generalizing x with
  | nil => rfl
  | cons p rest ih =>
    obtain ⟨key, v⟩ := p
    simp only [List.cons_append, storeMembers]
    cases matchField names key with
    | none => exact ih x
    | some name =>
      simp only
      cases store x name v with
      | error err => rfl
      | ok y => exact ih y

theorem attribute_store_fields (x y : HistoryStateAttribute) (key name : String) (v : JSON)
    (hm : matchField attributeNames key = some name)
    (hs : HistoryStateAttribute.store x name v = .ok y) :
    (y.FriendlyName = match v with
        | .string s => if name = "state" then s else x.FriendlyName
        | _ => x.FriendlyName) ∧
    (y.UnitOfMeasurement = match v with
        | .string s => if name = "unit_of_measurement" then s else x.UnitOfMeasurement
        | _ => x.UnitOfMeasurement) := by
  have hmem := matchField_mem hm
  simp only [attributeNames, List.mem_cons, List.mem_singleton, List.not_mem_nil, or_false] at hmem
  rcases hmem with rfl | rfl <;> cases v <;>
    simp +decide [HistoryStateAttribute.store, storeString, Except.map] at hs ⊢ <;>
    (try subst hs) <;> simp

/-- After the members of an attributes object have been stored, each field
holds the last string stored under a key that matches its `json` name. -/
theorem attributes_lastString (ms : List (String × JSON)) (x a : HistoryStateAttribute)
    (h : storeMembers attributeNames HistoryStateAttribute.store ms x = .ok a) :
    a.FriendlyName = lastString attributeNames "state" ms x.FriendlyName ∧
    a.UnitOfMeasurement =
      lastString attributeNames "unit_of_measurement" ms x.UnitOfMeasurement := by
  induction ms generalizing x with
  | nil =>
    simp only [storeMembers, Except.ok.injEq] at h
    subst h
    exact ⟨rfl, rfl⟩
  | cons p rest ih =>
    obtain ⟨key, v⟩ := p
    simp only [storeMembers] at h
    cases hm : matchField attributeNames key with
    | none =>
      simp only [hm] at h
      simpa [lastString, hm] using ih x h
    | some name =>
      simp only [hm] at h
      cases hs : HistoryStateAttribute.store x name v with
      | error err => simp [hs] at h
      | ok y =>
        simp only [hs] at h
        have hy := attribute_store_fields x y key name v hm hs
        have hrest := ih y h
        rw [hrest.1, hrest.2, hy.1, hy.2]
        have hmem := matchField_mem hm
        simp only [attributeNames, List.mem_cons, List.mem_singleton, List.not_mem_nil,
          or_false] at hmem
        rcases hmem with rfl | rfl <;> cases v <;> simp +decide [lastString, hm]

theorem lastString_absent (names : List String) (name : String) (ms : List (String × JSON))
    (cur : String) (h : ∀ p ∈ ms, matchField names p.1 ≠ some name) :
    lastString names name ms cur = cur := by
  induction ms generalizing cur with
  | nil => rfl
  | cons p rest ih =>
    obtain ⟨key, v⟩ := p
    have hk : matchField names key ≠ some name := h (key, v) (List.mem_cons_self _ _)
    simp only [lastString, hk, if_false]
    exact ih cur fun q hq => h q (List.mem_cons_of_mem _ hq)

theorem historyState_store_attributes (x y : HistoryState) (key name : String) (v : JSON)
    (hm : matchField historyStateNames key = some name)
    (hs : HistoryState.store x name v = .ok y) :
    storeMembers attributeNames HistoryStateAttribute.store (attrMembers [(key, v)])
      x.Attributes = .ok y.Attributes := by
  have hmem := matchField_mem hm
  simp only [historyStateNames, List.mem_cons, List.mem_singleton, List.not_mem_nil,
    or_false] at hmem
  rcases hmem with rfl | rfl | rfl | rfl | rfl <;> cases v <;>
    simp +decide [HistoryState.store, storeString, Except.map, attrMembers, hm, storeMembers,
      storeHistoryStateAttribute, storeStruct, attributeNames] at hs ⊢ <;>
    (try subst hs) <;> (try rfl)
  rename_i members
  cases hsm : storeMembers ["unit_of_measurement", "state"] HistoryStateAttribute.store members
      x.Attributes with
  | error err => simp [hsm] at hs
  | ok a =>
    simp only [hsm, Except.ok.injEq] at hs
    subst hs
    rfl

theorem attrMembers_cons (p : String × JSON) (rest : List (String × JSON)) :
    attrMembers (p :: rest) = attrMembers [p] ++ attrMembers rest := by
  obtain ⟨key, v⟩ := p
  simp only [attrMembers]
  split
  · cases v <;> simp
  · simp

/-- Storing the members of a history element stores, into its attributes, the
members of its `attributes` objects. -/
theorem historyState_attributes (ms : List (String × JSON)) (x hs : HistoryState)
    (h : storeMembers historyStateNames HistoryState.store ms x = .ok hs) :
    storeMembers attributeNames HistoryStateAttribute.store (attrMembers ms) x.Attributes =
      .ok hs.Attributes := by
  induction ms generalizing x with
  | nil =>
    simp only [storeMembers, Except.ok.injEq] at h
    subst h
    rfl
  | cons p rest ih =>
    obtain ⟨key, v⟩ := p
    rw [attrMembers_cons, storeMembers_append]
    simp only [storeMembers] at h
    cases hm : matchField historyStateNames key with
    | none =>
      simp only [hm] at h
      simp only [attrMembers, hm, storeMembers]
      exact ih x h
    | some name =>
      simp only [hm] at h
      cases hst : HistoryState.store x name v with
      | error err => simp [hst] at h
      | ok y =>
        simp only [hst] at h
        rw [historyState_store_attributes x y key name v hm hst]
        exact ih y h

theorem storeElems_forall₂ {τ : Type} (elem : JSON → Except Error τ) (elems : List JSON)
    (out : List τ) (h : storeElems elem elems = .ok out) :
    List.Forall₂ (fun v r => elem v = .ok r) elems out := by
  induction elems generalizing out with
  | nil =>
    simp only [storeElems, Except.ok.injEq] at h
    subst h
    exact List.Forall₂.nil
  | cons v rest ih =>
    simp only [storeElems] at h
    cases hv : elem v with
    | error err => simp [hv] at h
    | ok r =>
      simp only [hv] at h
      cases hr : storeElems elem rest with
      | error err => simp [hr] at h
      | ok rs =>
        simp only [hr, Except.ok.injEq] at h
        subst h
        exact List.Forall₂.cons hv (ih rs hr)

theorem lastString_filter (names : List String) (name : String) (keep : String → Bool)
    (hkeep : ∀ key, keep key = false → matchField names key ≠ some name)
    (ms : List (String × JSON)) (cur : String) :
    lastString names name (ms.filter fun p => keep p.1) cur = lastString names name ms cur := by
  induction ms generalizing cur with
  | nil => rfl
  | cons p rest ih =>
    obtain ⟨key, v⟩ := p
    cases hk : keep key with
    | false =>
      have hne := hkeep key hk
      simp only [List.filter_cons, hk, Bool.false_eq_true, if_false, lastString, hne]
      exact ih cur
    | true =>
      simp only [List.filter_cons, hk, if_true, lastString]
      split
      · cases v <;> simp only [ih]
      · exact ih cur

theorem friendly_name_not_state (key : String) (h : (!(key == "friendly_name")) = false) :
    matchField attributeNames key ≠ some "state" := by
  have hk : key = "friendly_name" := by simpa using h
  subst hk
  decide

/-- When `GetHistory` succeeds, its result is what `Decode` stored from the
body of the response that the transport gave to its request. -/
theorem getHistory_ok (parse : String → Option URL) (h : HomeAssistant) (startTime : Time)
    (entityIds : Option (List String)) (endTime : Time)
    (minimalResponse noAttributes significantChangesOnly : Bool) (resp : Response)
    (history : List (Option HistoryState))
    (hres : (h.GetHistory parse startTime entityIds endTime minimalResponse noAttributes
      significantChangesOnly).1 = .ok history)
    (hresp : ∀ req ∈ roundTrips (h.GetHistory parse startTime entityIds endTime
      minimalResponse noAttributes significantChangesOnly).2, h.client req = .ok resp) :
    decodeHistory resp.Body = .ok history := by
  cases hs : startTime.IsZero with
  | true => simp [HomeAssistant.GetHistory, hs] at hres
  | false =>
    cases hu : urlParse parse (historyURL h startTime entityIds endTime minimalResponse
        noAttributes significantChangesOnly) with
    | error err =>
      rw [getHistory_refused parse h startTime entityIds endTime minimalResponse noAttributes
        significantChangesOnly err hs hu] at hres
      cases hres
    | ok u =>
      rw [getHistory_events parse h startTime entityIds endTime minimalResponse noAttributes
        significantChangesOnly hs, hu] at hresp
      have hr := hresp (h.request "GET" u none) (by simp [roundTrips])
      rw [getHistory_result parse h startTime entityIds endTime minimalResponse noAttributes
        significantChangesOnly u resp hs hu hr] at hres
      exact hres

/-- C10, amended. For every element of the array that `GetHistory` decodes
from the response `resp` that the transport gave to its request:
`null` gives a nil pointer, and an object gives a `HistoryState` whose
`Attributes.FriendlyName` is the last string stored, inside the `attributes`
object, under a key that matches `state` (the key itself or, as
`encoding/json` matches keys, one that differs from it in letter case only),
and whose `Attributes.UnitOfMeasurement` is likewise taken from
`unit_of_measurement`. Members with the key `friendly_name` play no part. When
no key of the object matches, the field is the empty string. -/
theorem getHistory_attributes_wire_keys (parse : String → Option URL) (h : HomeAssistant)
    (startTime : Time) (entityIds : Option (List String)) (endTime : Time)
    (minimalResponse noAttributes significantChangesOnly : Bool) (resp : Response)
    (elems : List JSON) (rest : List Char) (history : List (Option HistoryState))
    (hres : (h.GetHistory parse startTime entityIds endTime minimalResponse noAttributes
      significantChangesOnly).1 = .ok history)
    (hresp : ∀ req ∈ roundTrips (h.GetHistory parse startTime entityIds endTime
      minimalResponse noAttributes significantChangesOnly).2, h.client req = .ok resp)
    (hread : readValue resp.Body = some (.array elems, rest)) :
    List.Forall₂ decodedFrom elems history := by
  have hdec := getHistory_ok parse h startTime entityIds endTime minimalResponse
    noAttributes significantChangesOnly resp history hres hresp
  simp only [decodeHistory, Decode, hread, storeSlice] at hdec
  refine (storeElems_forall₂ _ elems history hdec).imp ?_
  intro v r hv
  cases v with
  | null =>
    simp only [storePointer, Except.ok.injEq] at hv
    exact Or.inl ⟨rfl, hv.symm⟩
  | object ms =>
    simp only [storePointer, storeStruct] at hv
    cases hst : storeMembers historyStateNames HistoryState.store ms
        ⟨"", "", "", "", ⟨"", ""⟩⟩ with
    | error err =>
      simp [historyStateNames] at hst
      simp [hst, Except.map] at hv
    | ok hs =>
      simp only [historyStateNames] at hst
      simp only [hst, Except.map, Except.ok.injEq] at hv
      have ha := attributes_lastString _ _ _ (historyState_attributes ms _ hs hst)
      refine Or.inr ⟨ms, hs, rfl, hv.symm, ha.1, ha.2, ?_, ?_, ?_⟩
      · rw [ha.1]
        exact (lastString_filter attributeNames "state" (fun key => !(key == "friendly_name"))
          friendly_name_not_state _ _).symm
      · intro h
        rw [ha.1]
        exact lastString_absent _ _ _ _ h
      · intro h
        rw [ha.2]
        exact lastString_absent _ _ _ _ h
  | _ => simp [storePointer, storeStruct, Except.map] at hv

/-- C10, as stated, fails on the absent key: the attributes object below has no
key `state`, yet the friendly name is not left empty, because `encoding/json`
also stores the key `STATE` into the field tagged `state`. -/
theorem getHistory_state_key_other_case :
    (HomeAssistant.GetHistory exampleParse
        ⟨"http://hass.local:8123", "secret", fun _ =>
          .ok ⟨200, "[\x7b\"attributes\":\x7b\"STATE\":\"Kitchen\"\x7d\x7d]"⟩⟩
        (Time.mk 63839664000 0 UTC) none Time.zero false false false).1 =
      .ok [some ⟨"", "", "", "", ⟨"", "Kitchen"⟩⟩] := by
  decide

/-- C10, amended, at a response whose attributes object has the keys
`unit_of_measurement`, `state` and `friendly_name`. -/
theorem getHistory_attributes_wire_keys_witness :
    List.Forall₂ decodedFrom
      [JSON.object [("entity_id", .string "sensor.t"),
        ("attributes", .object [("unit_of_measurement", .string "C"),
          ("state", .string "Kitchen"), ("friendly_name", .string "Other")])], JSON.null]
      [some ⟨"sensor.t", "", "", "", ⟨"C", "Kitchen"⟩⟩, none] :=
  getHistory_attributes_wire_keys exampleParse
    ⟨"http://hass.local:8123", "secret", fun _ => .ok ⟨200,
      "[\x7b\"entity_id\":\"sensor.t\",\"attributes\":\x7b\"unit_of_measurement\":\"C\"," ++
      "\"state\":\"Kitchen\",\"friendly_name\":\"Other\"\x7d\x7d,null]"⟩⟩
    (Time.mk 63839664000 0 UTC) none Time.zero false false false
    ⟨200, "[\x7b\"entity_id\":\"sensor.t\",\"attributes\":\x7b\"unit_of_measurement\":\"C\"," ++
      "\"state\":\"Kitchen\",\"friendly_name\":\"Other\"\x7d\x7d,null]"⟩
    _ [] [some ⟨"sensor.t", "", "", "", ⟨"C", "Kitchen"⟩⟩, none]
    (by decide) (fun _ _ => rfl) rfl

/-! ### Decode errors of the read operations -/

theorem storeString_fits (v : JSON) (old s : String) (h : storeString v old = .ok s) :
    stringOrNull v = true := by
  cases v <;> simp [storeString] at h <;> rfl

theorem isSpace_false_of {c : Char} (h : c = ',' ∨ c = ']' ∨ c = '\x7d' ∨ c = ':') :
    isSpace c = false := by
  rcases h with rfl | rfl | rfl | rfl <;> decide

theorem fits_number_false (lit : String) :
    sliceFits stateFits (.number lit) = false ∧ entityFits (.number lit) = false ∧
    sliceFits historyStateFits (.number lit) = false :=
  ⟨rfl, rfl, rfl⟩

end Hass
